import Mathlib

/-!
# Verification of the chinacolor palette library

A shallow embedding, in Lean 4, of the core of the `chinacolor` Python
package (color-notation parsing, palette resolution, palette sampling,
custom palette building, dataset loading), together with theorems that
settle the specification claims about it.

Conventions of the embedding:
* Python strings are `String` / `List Char`; only ASCII matters for the
  data handled here, so `str.strip`, `str.upper`, `str.lower` are modelled
  on the ASCII ranges.
* Python `int` is `Int`; the float arithmetic of the interpolation
  pipeline is modelled by exact fraction arithmetic (`Frac`).
* Raised exceptions become `Except` error values.
* Python list slicing `l[:n]` (including negative `n`) is `pySliceTake`.
-/

namespace ChinaColor

/-- ASCII test for the regex character class `[0-9A-Fa-f]` used by
`colorparse._hex6` and the hex branch of `colorparse.to_hex`. -/
def isHexDigitChar (c : Char) : Bool :=
  (48 ≤ c.toNat && c.toNat ≤ 57) || (97 ≤ c.toNat && c.toNat ≤ 102)
    || (65 ≤ c.toNat && c.toNat ≤ 70)

/-- Whitespace removed by Python `str.strip()` (ASCII subset: space, tab,
newline, carriage return, vertical tab, form feed). -/
def isPySpace (c : Char) : Bool :=
  c.toNat = 32 || c.toNat = 9 || c.toNat = 10 || c.toNat = 13
    || c.toNat = 11 || c.toNat = 12

/-- Python `str.strip()` on a character list. -/
def pyStrip (cs : List Char) : List Char :=
  ((cs.dropWhile isPySpace).reverse.dropWhile isPySpace).reverse

/-- Python `str.upper()` on an ASCII character. -/
def pyUpperChar (c : Char) : Char :=
  if 97 ≤ c.toNat ∧ c.toNat ≤ 122 then Char.ofNat (c.toNat - 32) else c

/-- Python `str.lower()` on an ASCII character. -/
def pyLowerChar (c : Char) : Char :=
  if 65 ≤ c.toNat ∧ c.toNat ≤ 90 then Char.ofNat (c.toNat + 32) else c

/-- Python `str.lower()` on a string (ASCII model). -/
def pyLower (s : String) : String := ⟨s.data.map pyLowerChar⟩

/-- Errors of the color parser.  `invalidHex` models the `ValueError`
raised by `_hex6`; `nonHexBranch` stands for every outcome of the
non-hex branches of `to_hex` (`rgb()`, `hsv()`, `hsl()`, `hcl()`, named
colors), which depend on floating point and matplotlib tables and are
outside every claim settled here. -/
inductive ColorErr where
  | invalidHex
  | nonHexBranch
  deriving DecidableEq

/-- `colorparse._hex6`: strip, add a leading `#` when absent, then accept
exactly the shapes `#xxx` (expanded by digit duplication), `#xxxxxx`
(uppercased) and `#xxxxxxxx` (alpha pair dropped, uppercased); everything
else raises.  The three `re.fullmatch` tests of the source are translated
as one all-hex-digit test plus a length match, which is equivalent. -/
def hex6 (cs : List Char) : Except ColorErr (List Char) :=
  let h := pyStrip cs
  let h := if h.head? = some '#' then h else '#' :: h
  match h with
  | '#' :: ds =>
    if ds.all isHexDigitChar then
      match ds with
      | [r, g, b] =>
        .ok ['#', pyUpperChar r, pyUpperChar r, pyUpperChar g, pyUpperChar g,
             pyUpperChar b, pyUpperChar b]
      | [r1, r2, g1, g2, b1, b2] =>
        .ok ['#', pyUpperChar r1, pyUpperChar r2, pyUpperChar g1, pyUpperChar g2,
             pyUpperChar b1, pyUpperChar b2]
      | [r1, r2, g1, g2, b1, b2, _, _] =>
        .ok ['#', pyUpperChar r1, pyUpperChar r2, pyUpperChar g1, pyUpperChar g2,
             pyUpperChar b1, pyUpperChar b2]
      | _ => .error .invalidHex
    else .error .invalidHex
  | _ => .error .invalidHex

/-- The hex-shape regex of `to_hex`:
`^#?[0-9A-Fa-f]{3}([0-9A-Fa-f]{3})?([0-9A-Fa-f]{2})?$`, i.e. an optional
`#` followed by 3, 5, 6 or 8 hex digits covering the whole string. -/
def hexShapeTest (cs : List Char) : Bool :=
  let ds := if cs.head? = some '#' then cs.tail else cs
  ds.all isHexDigitChar &&
    (ds.length = 3 || ds.length = 5 || ds.length = 6 || ds.length = 8)

/-- `colorparse.to_hex`: strip the input, dispatch to `_hex6` when the hex
regex matches.  The remaining branches (functional `rgb()`/`hsv()`/
`hsl()`/`hcl()` syntax and named colors) convert through floating-point
color spaces; no settled claim exercises them, and they are collapsed
into the `nonHexBranch` error value. -/
def to_hex (s : String) : Except ColorErr String :=
  let c := pyStrip s.data
  if hexShapeTest c then (hex6 c).map (fun l => (⟨l⟩ : String))
  else .error .nonHexBranch

/-- Python slicing `l[:n]` for an arbitrary integer `n`: a nonnegative `n`
takes the first `n` elements, a negative `n` drops the last `-n`. -/
def pySliceTake (n : Int) (l : List α) : List α :=
  if 0 ≤ n then l.take n.toNat else l.take (l.length - (-n).toNat)

/-- Value of an ASCII hex digit (only called on `[0-9A-Fa-f]`). -/
def digitVal (c : Char) : Nat :=
  if 48 ≤ c.toNat ∧ c.toNat ≤ 57 then c.toNat - 48
  else if 97 ≤ c.toNat ∧ c.toNat ≤ 102 then c.toNat - 87
  else if 65 ≤ c.toNat ∧ c.toNat ≤ 70 then c.toNat - 55
  else 0

/-- Byte value of a hex digit pair. -/
def hexPairVal (c1 c2 : Char) : Nat := 16 * digitVal c1 + digitVal c2

/-- Parse a canonical `#RRGGBB` string into its three byte channels.
Models `matplotlib.colors.to_rgba` on the canonical hex strings that the
palette dataset holds (other notations accepted by matplotlib are not
needed here); a non-canonical string yields `none`. -/
def parseHexColor (s : String) : Option (Nat × Nat × Nat) :=
  match s.data with
  | ['#', r1, r2, g1, g2, b1, b2] =>
    if [r1, r2, g1, g2, b1, b2].all isHexDigitChar then
      some (hexPairVal r1 r2, hexPairVal g1 g2, hexPairVal b1 b2)
    else none
  | _ => none

/-- An uppercase hex digit `0-9A-F`. -/
def isUpperHexDigit (x : Char) : Bool :=
  (48 ≤ x.toNat && x.toNat ≤ 57) || (65 ≤ x.toNat && x.toNat ≤ 70)

/-- A canonical uppercase `#RRGGBB` string: `#` followed by six digits
from `0-9A-F` (the form the dataset stores and `to_hex` produces). -/
def isCanonicalHexU (s : String) : Bool :=
  match s.data with
  | ['#', a, b, c, d, e, f] => [a, b, c, d, e, f].all isUpperHexDigit
  | _ => false

/-- Total version of `parseHexColor` (used to state what `mapM` returns
on valid input). -/
def parseHexColorD (s : String) : Nat × Nat × Nat :=
  (parseHexColor s).getD (0, 0, 0)

/-- Uppercase hex digit character for a value in `0..15`. -/
def hexDigitU (n : Nat) : Char :=
  if n < 10 then Char.ofNat (48 + n) else Char.ofNat (55 + n)

/-- The two characters of `f"{v:02X}"` for a byte value `v ≤ 255`. -/
def byteHex (v : Nat) : List Char := [hexDigitU (v / 16 % 16), hexDigitU (v % 16)]

/-- `"#" + "".join(f"{v:02X}" for v in rgb)` for a byte triple. -/
def formatRGB (t : Nat × Nat × Nat) : String :=
  ⟨'#' :: (byteHex t.1 ++ byteHex t.2.1 ++ byteHex t.2.2)⟩

/-- An exact fraction (numerator / positive denominator), the model of
the real-number arithmetic of the interpolation pipeline.  No
normalisation is performed — values are compared and floored through
cross-multiplication, so every operation is plain `Int` arithmetic and
kernel-reducible.  All fractions built below keep a positive
denominator. -/
structure Frac where
  num : Int
  den : Int
  deriving DecidableEq

/-- Embed an integer. -/
def Frac.ofInt (n : Int) : Frac := ⟨n, 1⟩

def Frac.add (a b : Frac) : Frac := ⟨a.num * b.den + b.num * a.den, a.den * b.den⟩

def Frac.sub (a b : Frac) : Frac := ⟨a.num * b.den - b.num * a.den, a.den * b.den⟩

def Frac.mul (a b : Frac) : Frac := ⟨a.num * b.num, a.den * b.den⟩

/-- `a / b`, with the sign moved into the numerator so the denominator
stays positive (never called with a zero divisor below). -/
def Frac.div (a b : Frac) : Frac :=
  if 0 ≤ b.num then ⟨a.num * b.den, a.den * b.num⟩
  else ⟨-(a.num * b.den), -(a.den * b.num)⟩

/-- `a ≤ b` by cross-multiplication (valid for positive denominators). -/
def Frac.leb (a b : Frac) : Bool := decide (a.num * b.den ≤ b.num * a.den)

/-- `⌊a⌋` (floor division). -/
def Frac.floor (a : Frac) : Int := Int.fdiv a.num a.den

/-- `⌈a⌉`. -/
def Frac.ceil (a : Frac) : Int := -Int.fdiv (-a.num) a.den

/-- Truncation toward zero (`int(...)` / `astype(int)`): `Int.div`
truncates toward zero. -/
def Frac.trunc (a : Frac) : Int := Int.tdiv a.num a.den

/-- Truncation toward zero of `q * 255`, as `(c * 255).astype(int)` does
to a channel value. -/
def truncByte (q : Frac) : Nat := (Frac.trunc (q.mul (Frac.ofInt 255))).toNat

/-- One channel of the `N`-entry lookup table that
`LinearSegmentedColormap.from_list` builds from `vals` (the channel
values of the base colors, placed at positions `j/(m-1)`): entry `0` is
the first value, entry `N-1` the last, and an interior entry `i` is the
piecewise-linear interpolation at position `i/(N-1)`, computed with the
`searchsorted`/`distance` formula of matplotlib's `_create_lookup_table`
(`gamma = 1`), here in exact arithmetic. -/
def lutChan (vals : List Frac) (N : Nat) (i : Nat) : Frac :=
  let m := vals.length
  if i = 0 then vals.headD (Frac.ofInt 0)
  else if i = N - 1 then vals.getLastD (Frac.ofInt 0)
  else
    let v : Frac := Frac.div (Frac.ofInt i) (Frac.ofInt ((N : Int) - 1))
    let ic := Int.toNat (Frac.ceil (v.mul (Frac.ofInt ((m : Int) - 1))))
    let idx := if ic < 1 then 1 else ic
    let x0 : Frac := Frac.div (Frac.ofInt ((idx : Int) - 1)) (Frac.ofInt ((m : Int) - 1))
    let x1 : Frac := Frac.div (Frac.ofInt idx) (Frac.ofInt ((m : Int) - 1))
    let y0 := vals.getD (idx - 1) (Frac.ofInt 0)
    let y1 := vals.getD idx (Frac.ofInt 0)
    y0.add (((v.sub x0).div (x1.sub x0)).mul (y1.sub y0))

/-- Errors raised (directly or through libraries) inside `get_palette`. -/
inductive PalErr where
  | paletteNotFound
  | indexOutOfRange
  | matplotlibError
  | zeroDivision
  deriving DecidableEq

/-- The three channel value lists (each in `[0,1]`, as byte/255) of a
parsed base color list. -/
def channelFracs (rgbs : List (Nat × Nat × Nat)) : List Frac × List Frac × List Frac :=
  (rgbs.map (fun t => Frac.div (Frac.ofInt t.1) (Frac.ofInt 255)),
   rgbs.map (fun t => Frac.div (Frac.ofInt t.2.1) (Frac.ofInt 255)),
   rgbs.map (fun t => Frac.div (Frac.ofInt t.2.2) (Frac.ofInt 255)))

/-- `palettes._interpolate_colors`, modelled exactly:
build the `N = max(n, 256)`-entry lookup table of
`LinearSegmentedColormap.from_list`, evaluate it at
`np.linspace(0, 1, n)` (each sample `t` reads table entry
`min ⌊t*N⌋ (N-1)`, matplotlib's float-to-index conversion), truncate
each channel of the sample times 255 toward zero (`astype(int)`), and
format as `#RRGGBB`.  A base list with fewer than two parseable colors
makes matplotlib raise, modelled by `matplotlibError`.  The float
arithmetic of numpy/matplotlib is modelled by exact `Frac` arithmetic;
on this pipeline the float computation is exact for the dataset's
byte-valued colors except for sub-ulp effects that do not change any
truncated byte in the cases proved below. -/
def linspaceFrac (nN : Nat) : List Frac :=
  if nN = 1 then [Frac.ofInt 0]
  else (List.range nN).map (fun (j : Nat) =>
    Frac.div (Frac.ofInt (j : Int)) (Frac.ofInt ((nN : Int) - 1)))

/-- One sample of the quantised colormap: convert `t` to the table index
`min ⌊t*N⌋ (N-1)`, read the three channel tables, truncate to bytes and
format. -/
def sampleAt (chs : List Frac × List Frac × List Frac) (Nn : Nat) (t : Frac) : String :=
  let i0 := Int.toNat (Frac.floor (t.mul (Frac.ofInt Nn)))
  let i := if Nn - 1 < i0 then Nn - 1 else i0
  formatRGB (truncByte (lutChan chs.1 Nn i), truncByte (lutChan chs.2.1 Nn i),
             truncByte (lutChan chs.2.2 Nn i))

def interpolate_colors (base : List String) (n : Int) : Except PalErr (List String) :=
  match base.mapM parseHexColor with
  | none => .error .matplotlibError
  | some rgbs =>
    if rgbs.length < 2 then .error .matplotlibError
    else
      let Nn := (if n < 256 then 256 else n).toNat
      let nN := if n ≤ 0 then 0 else n.toNat
      .ok ((linspaceFrac nN).map (sampleAt (channelFracs rgbs) Nn))

/-- Round `q * 255` to the nearest integer (the conversion claim C1
describes). -/
def roundByte (q : Frac) : Nat :=
  (Frac.floor ((q.mul (Frac.ofInt 255)).add ⟨1, 2⟩)).toNat

/-- Piecewise-linear interpolation through `vals` (placed at positions
`j/(m-1)`) evaluated at `t` itself — no lookup-table quantisation. -/
def pwlChan (vals : List Frac) (t : Frac) : Frac :=
  let m := vals.length
  if t.leb (Frac.ofInt 0) then vals.headD (Frac.ofInt 0)
  else if (Frac.ofInt 1).leb t then vals.getLastD (Frac.ofInt 0)
  else
    let ic := Int.toNat (Frac.ceil (t.mul (Frac.ofInt ((m : Int) - 1))))
    let idx := if ic < 1 then 1 else ic
    let x0 : Frac := Frac.div (Frac.ofInt ((idx : Int) - 1)) (Frac.ofInt ((m : Int) - 1))
    let x1 : Frac := Frac.div (Frac.ofInt idx) (Frac.ofInt ((m : Int) - 1))
    let y0 := vals.getD (idx - 1) (Frac.ofInt 0)
    let y1 := vals.getD idx (Frac.ofInt 0)
    y0.add (((t.sub x0).div (x1.sub x0)).mul (y1.sub y0))

/-- The interpolation procedure exactly as claim C1 words it (and not as
the code computes it): sample the piecewise-linear gradient through the
base colors at `n` evenly spaced points across `[0,1]` inclusive and
round each channel to the nearest integer in `0..255`.  Used only to
compare the claim's wording against `interpolate_colors`. -/
def claimWordedInterpolation (base : List String) (n : Nat) : Option (List String) :=
  match base.mapM parseHexColor with
  | none => none
  | some rgbs =>
    let ch := channelFracs rgbs
    let ts : List Frac :=
      if n = 1 then [Frac.ofInt 0]
      else (List.range n).map (fun (j : Nat) =>
        Frac.div (Frac.ofInt (j : Int)) (Frac.ofInt ((n : Int) - 1)))
    some (ts.map (fun t =>
      formatRGB (roundByte (pwlChan ch.1 t), roundByte (pwlChan ch.2.1 t),
                 roundByte (pwlChan ch.2.2 t))))

/-- Lexicographic `≤` on character lists by code point, as Python
compares strings. -/
def strLeb : List Char → List Char → Bool
  | [], _ => true
  | _ :: _, [] => false
  | a :: as, b :: bs =>
    if a.toNat < b.toNat then true
    else if b.toNat < a.toNat then false
    else strLeb as bs

/-- Python tuple comparison on `(index, string)` pairs, as used by
`sorted(zip(idxs, out))`. -/
def pairLeb (a b : Nat × String) : Bool :=
  decide (a.1 < b.1) || (decide (a.1 = b.1) && strLeb a.2.data b.2.data)

/-- The `while len(out) < n` loop of `_diverging_center_out`.  One fuel
unit per iteration; every iteration of the source loop appends at least
one element or breaks, so `n.toNat + 1` fuel suffices.  Python list
indexing never goes out of bounds here for the arguments `get_palette`
supplies (nonempty `base`), so `getD` with a default is faithful. -/
def centerLoop (base : List String) (m : Nat) (n : Int) :
    Nat → Int → Nat → List String → List String
  | 0, _, _, out => out
  | fuel + 1, li, ri, out =>
    if (out.length : Int) < n then
      let s1 :=
        if 0 ≤ li then
          let out1 := out ++ [base.getD li.toNat ""]
          if n ≤ (out1.length : Int) then (out1, li, true)
          else (out1, li - 1, false)
        else (out, li, false)
      if s1.2.2 then s1.1
      else
        let p := if ri < m then (s1.1 ++ [base.getD ri ""], ri + 1) else (s1.1, ri)
        if s1.2.1 < 0 ∧ m ≤ p.2 then p.1
        else centerLoop base m n fuel s1.2.1 p.2 p.1
    else out

/-- `palettes._diverging_center_out`: take `base[:n]` when `n ≥ m`,
otherwise pick the center (lower middle for even `m`), expand
alternately left then right until `n` elements are collected, then
re-sort the picks by `base.index` of each color (first occurrence!) and
return the first `n`. -/
def diverging_center_out (base : List String) (n : Int) : List String :=
  let m := base.length
  if (m : Int) ≤ n then pySliceTake n base
  else
    let mid := (m - 1) / 2
    if n = 1 then [base.getD mid ""]
    else
      let out := centerLoop base m n (n.toNat + 1) ((mid : Int) - 1) (mid + 1)
        [base.getD mid ""]
      let pairs := out.map (fun c => (base.indexOf c, c))
      pySliceTake n ((pairs.mergeSort pairLeb).map (fun p => p.2))

/-- A record of `palette_list.json`, with the fields the library reads.
`ptype` is the JSON field `"type"` (`type` is reserved in Lean). -/
structure Pal where
  palette_name : Option String
  palette_name_e : Option String
  ptype : Option String
  color_count : Option Int
  hex : List String
  deriving DecidableEq

/-- Dict lookup `pl_map[k]` over the palette collection.
`load_palette_list()` returns the JSON object as a mapping plus its key
list in declaration order; a single association list carries both (JSON
object keys are unique, insertion order is preserved by Python dicts). -/
def palMap (pl : List (String × Pal)) (k : String) : Option Pal :=
  (pl.find? (fun e => e.1 == k)).map (fun e => e.2)

/-- `PaletteIdent = Union[int, str]`. -/
inductive PaletteIdent where
  | idx (i : Int)
  | name (s : String)

/-- The per-palette test of the name-matching loop of
`_normalize_identifier`: case-insensitive equality of the identifier
with the primary (`palette_name`) or secondary (`palette_name_e`)
display name (missing names default to `""`). -/
def nameMatch (s : String) (e : String × Pal) : Bool :=
  (pyLower (e.2.palette_name.getD "") == pyLower s)
    || (pyLower (e.2.palette_name_e.getD "") == pyLower s)

/-- `palettes._normalize_identifier`: a 1-based in-range ordinal selects
by position; a string is first matched exactly against the palette keys,
and otherwise one pass over the palettes in declaration order returns
the first whose primary (`palette_name`) or secondary (`palette_name_e`)
display name matches case-insensitively. -/
def normalize_identifier (pl : List (String × Pal)) (x : PaletteIdent) :
    Except PalErr (String × Pal) :=
  match x with
  | .idx i =>
    if i < 1 ∨ (pl.length : Int) < i then .error .indexOutOfRange
    else
      match pl.get? (i - 1).toNat with
      | some e => .ok e
      | none => .error .indexOutOfRange
  | .name s =>
    match palMap pl s with
    | some p => .ok (s, p)
    | none =>
      match pl.find? (nameMatch s) with
      | some e => .ok e
      | none => .error .paletteNotFound

/-- `palettes.get_palette`: resolve the identifier, then
* `n = None`: the base colors unchanged;
* `n > color_count`: interpolate (sequential/diverging) or cycle
  (anything else; `n // len(base)` raises `ZeroDivisionError` on an
  empty base);
* otherwise: `base[:n]` (sequential/qualitative/unknown) or the
  center-out selection (diverging);
finally a direction outside `{1, -1}` is replaced by `1` and `-1`
reverses.  The color computation before the direction handling is split
off as `paletteColors`. -/
def paletteColors (p : Pal) (n : Option Int) : Except PalErr (List String) :=
  let base := p.hex
  let base_count : Int := p.color_count.getD (base.length : Int)
  let ptype := p.ptype.getD "qualitative"
  match n with
  | none => Except.ok base
  | some n =>
    if base_count < n then
      if ptype = "sequential" ∨ ptype = "diverging" then interpolate_colors base n
      else if base.length = 0 then Except.error .zeroDivision
      else Except.ok (pySliceTake n
        (List.flatten (List.replicate (Int.toNat (Int.fdiv n (base.length : Int) + 1)) base)))
    else
      if ptype = "sequential" ∨ ptype = "qualitative" then Except.ok (pySliceTake n base)
      else if ptype = "diverging" then Except.ok (diverging_center_out base n)
      else Except.ok (pySliceTake n base)

/-- `palettes.get_palette`: resolve, compute the colors, then apply the
direction (any value outside `{1, -1}` is treated as `1`). -/
def get_palette (pl : List (String × Pal)) (identifier : PaletteIdent)
    (n : Option Int) (direction : Int) : Except PalErr (List String) := do
  let (_, p) ← normalize_identifier pl identifier
  let colors ← paletteColors p n
  let dir := if direction = 1 ∨ direction = -1 then direction else 1
  if dir = -1 then Except.ok colors.reverse else Except.ok colors

/-- A color record as produced by `dataset.load_chinacolor`, with the
fields the palette builder reads. -/
structure ColorRec where
  color_id : Option Int
  name : Option String
  hex : Option String
  group : Option Int
  group_id : Option Int
  subgroup : Option Int
  subgroup_id : Option Int
  deriving DecidableEq

/-- Truthiness of `c.get("hex")`: present and nonempty. -/
def hexTruthy (c : ColorRec) : Option String :=
  match c.hex with
  | some h => if h = "" then none else some h
  | none => none

/-- `id_to_hex = {c.get("color_id"): c["hex"] for c in base_colors if c.get("hex")}`:
later entries overwrite earlier ones, so a lookup sees the last matching
record with a truthy hex. -/
def id_to_hex (ds : List ColorRec) (i : Int) : Option String :=
  ((ds.filter (fun c => (hexTruthy c).isSome)).reverse.find?
    (fun c => c.color_id == some i)).bind hexTruthy

/-- `name_to_hex = {c.get("name"): c["hex"] for c in base_colors if c.get("hex")}`,
looked up at a string name. -/
def name_to_hex (ds : List ColorRec) (nm : String) : Option String :=
  ((ds.filter (fun c => (hexTruthy c).isSome)).reverse.find?
    (fun c => c.name == some nm)).bind hexTruthy

/-- `next((c["color_id"] for c in base_colors if c["name"] == nm), None)`.
Rows produced by one loader share a uniform key set, so the `c["name"]`
access never raises; a record without a name never matches here. -/
def firstIdByName (ds : List ColorRec) (nm : String) : Option Int :=
  (ds.find? (fun c => c.name == some nm)).bind (fun c => c.color_id)

/-- `if xs:` on an optional list argument: `None` and `[]` are both falsy
and both make the pass contribute nothing, so iterating over `[]` is an
exact model of skipping the pass. -/
def truthyList : Option (List α) → List α
  | none => []
  | some l => l

/-- The `color_ids` pass of `custom_palette`: ids found in the dataset
contribute `(id, hex)`, others are skipped. -/
def chosenFromIds (ds : List ColorRec) (ids : List Int) : List (Int × String) :=
  ids.filterMap (fun cid => (id_to_hex ds cid).map (fun hx => (cid, hx)))

/-- The `names` pass: exact-name matches contribute
`(first matching record's id, or the 10^9 sentinel, hex)`. -/
def chosenFromNames (ds : List ColorRec) (names : List String) : List (Int × String) :=
  names.filterMap (fun nm => (name_to_hex ds nm).map
    (fun hx => ((firstIdByName ds nm).getD (10 ^ 9), hx)))

/-- The `hexes` pass: each string goes through `to_hex`; failures are
silently skipped (`except Exception: continue`); the sort key is
`10**9 + len(chosen)` at append time. -/
def chosenAddHexes (chosen : List (Int × String)) : List String → List (Int × String)
  | [] => chosen
  | hx :: rest =>
    match to_hex hx with
    | .ok h => chosenAddHexes (chosen ++ [((10 : Int) ^ 9 + chosen.length, h)]) rest
    | .error _ => chosenAddHexes chosen rest

/-- `gval == g and sval == s` where `gval` is `c.get("group")` with
`c.get("group_id")` as fallback, and likewise for subgroups. -/
def groupMatches (c : ColorRec) (g s : Int) : Bool :=
  (c.group.orElse (fun _ => c.group_id) == some g)
    && (c.subgroup.orElse (fun _ => c.subgroup_id) == some s)

/-- The group/subgroup pass: for each group (with its subgroup list,
where `[-1]` means `[4,3,2,1]`), for each subgroup value, scan the whole
dataset and take every matching record that has an id and a truthy hex. -/
def chosenFromGroups (ds : List ColorRec) (gs : List Int)
    (subs : List (List Int)) : List (Int × String) :=
  gs.enum.flatMap (fun e =>
    let s_list := subs.getD e.1 []
    let s_list := if s_list = [-1] then [4, 3, 2, 1] else s_list
    s_list.flatMap (fun s =>
      ds.filterMap (fun c =>
        if groupMatches c e.2 s then
          match c.color_id, hexTruthy c with
          | some cid, some hx => some (cid, hx)
          | _, _ => none
        else none)))

/-- Errors of `custom_palette`: `emptySelection` is the
`ValueError("No colors selected...")`; `indexError` is the
`subgroups[-1]` access on an empty list. -/
inductive CErr where
  | emptySelection
  | indexError
  deriving DecidableEq

/-- Normalize the `subgroups` argument against `groups` as the source
does: default to `[1,2,3,4]` per group; when shorter than `groups`,
recycle the last entry (`subgroups[-1]` raises `IndexError` when the
list is empty).  Single ints arrive pre-wrapped as singleton lists (the
`isinstance(sg, int)` normalization). -/
def normalizeSubgroups (gs : List Int) :
    Option (List (List Int)) → Except CErr (List (List Int))
  | none => .ok (gs.map (fun _ => [1, 2, 3, 4]))
  | some sl =>
    if sl.length < gs.length then
      match sl.getLast? with
      | none => .error .indexError
      | some last => .ok (sl ++ List.replicate (gs.length - sl.length) last)
    else .ok sl

/-- Deduplicate by hex keeping the first occurrence, preserving order;
`seen` is the accumulated set. -/
def dedupByHex : List (Int × String) → List String → List (Int × String)
  | [], _ => []
  | p :: rest, seen =>
    if seen.contains p.2 then dedupByHex rest seen
    else p :: dedupByHex rest (p.2 :: seen)

/-- Python tuple `≤` on `(sort_key, hex)` pairs.  In this embedding the
first component is always an int (the source substitutes the `10**9`
sentinel before any `None` could be stored), so the
`t[0] if t[0] is not None else 10**9` guard is the identity. -/
def ipairLeb (a b : Int × String) : Bool :=
  decide (a.1 < b.1) || (decide (a.1 = b.1) && strLeb a.2.data b.2.data)

/-- The candidate-collection phase of `custom_palette`: the four passes
(ids, names, hexes, group/subgroup selection) in source order; only the
group pass can raise. -/
def buildChosen (ds : List ColorRec) (color_ids : Option (List Int))
    (names : Option (List String)) (hexes : Option (List String))
    (groups : Option (List Int)) (subgroups : Option (List (List Int))) :
    Except CErr (List (Int × String)) :=
  let chosen := chosenFromIds ds (truthyList color_ids)
  let chosen := chosen ++ chosenFromNames ds (truthyList names)
  let chosen := chosenAddHexes chosen (truthyList hexes)
  match groups with
  | none => Except.ok chosen
  | some gs => do
    let subs ← normalizeSubgroups gs subgroups
    Except.ok (chosen ++ chosenFromGroups ds gs subs)

/-- `palettes.custom_palette`.  The dataset list is the result of
`load_chinacolor()`, passed as a parameter.  Python's stable `list.sort`
is `List.mergeSort`; `reverse=True` is the flipped comparator (stable
descending). -/
def custom_palette (ds : List ColorRec) (color_ids : Option (List Int))
    (names : Option (List String)) (hexes : Option (List String))
    (groups : Option (List Int)) (subgroups : Option (List (List Int)))
    (order : Int) (n : Option Int) (direction : Int) :
    Except CErr (List String) := do
  let chosen ← buildChosen ds color_ids names hexes groups subgroups
  let dedup := dedupByHex chosen []
  if dedup = [] then Except.error .emptySelection
  else
    let dedup :=
      if order = 0 then dedup.mergeSort ipairLeb
      else if order = -1 then dedup.mergeSort (fun a b => ipairLeb b a)
      else dedup
    let colors := dedup.map (fun p => p.2)
    let colors := (match n with
      | none => colors
      | some n =>
        if (colors.length : Int) < n then
          pySliceTake n (List.flatten (List.replicate
            (Int.toNat (Int.fdiv n (colors.length : Int) + 1)) colors))
        else pySliceTake n colors)
    if direction = -1 then Except.ok colors.reverse else Except.ok colors

/-- A read attempt performed by the Dataset Accessor: `pkg` is the
`importlib.resources` package data lookup, `fb` the repository fallback
directory. -/
inductive ReadEv where
  | pkg (filename : String)
  | fb (filename : String)
  deriving DecidableEq

/-- The external storage the Dataset Accessor reads: contents of the
data files, already decoded by the external libraries (`csv.DictReader`
rows for the CSV source, `json.loads` values for the JSON sources);
`none` means the file is absent at that location. -/
structure Storage where
  pkgCsv : Option (List (List (String × String)))
  fbCsv : Option (List (List (String × String)))
  pkgColorJson : Option (List ColorRec)
  fbColorJson : Option (List ColorRec)
  pkgPalette : Option (List (String × Pal))
  fbPalette : Option (List (String × Pal))

/-- `dataset._load_text`: try the package resource, then the repository
fallback; returns the content found together with the reads performed. -/
def loadText (pkgC fbC : Option α) (filename : String) : Option α × List ReadEv :=
  match pkgC with
  | some t => (some t, [.pkg filename])
  | none =>
    match fbC with
    | some t => (some t, [.pkg filename, .fb filename])
    | none => (none, [.pkg filename, .fb filename])

/-- `int(float(v))` on a CSV cell (the `_int` helper): optional sign,
decimal digits with an optional fractional part, truncated toward zero;
empty or unparsable cells give `None`.  (Exponent notation never occurs
in the dataset and parses to `None` here.) -/
def parseCell (s : String) : Option Int :=
  let cs := pyStrip s.data
  let sgn := match cs with
    | '-' :: rest => (true, rest)
    | '+' :: rest => (false, rest)
    | _ => (false, cs)
  let isDigit : Char → Bool := fun c => 48 ≤ c.toNat && c.toNat ≤ 57
  let ip := sgn.2.takeWhile isDigit
  let rest := sgn.2.drop ip.length
  let fracOk := match rest with
    | [] => true
    | '.' :: fs => fs.all isDigit
    | _ => false
  if fracOk = true ∧ 0 < sgn.2.length ∧ sgn.2 ≠ ['.'] then
    let v : Int := ip.foldl (fun a c => a * 10 + ((c.toNat : Int) - 48)) 0
    some (if sgn.1 then -v else v)
  else none

/-- `r.get(k)` on a `csv.DictReader` row after the
`{k.strip(): v for k, v in row.items()}` re-keying (later duplicate
stripped keys overwrite earlier ones). -/
def rowGet (row : List (String × String)) (k : String) : Option String :=
  (row.reverse.find? (fun e => (⟨pyStrip e.1.data⟩ : String) == k)).map (fun e => e.2)

/-- Normalization of one CSV row in `load_chinacolor`: `_int` the id
columns, prefix a missing `#` on a truthy hex, and alias
`group`/`subgroup` to the id columns (`setdefault`; the CSV schema has
no separate `group`/`subgroup` columns). -/
def normalizeRow (row : List (String × String)) : ColorRec :=
  let hx := match rowGet row "hex" with
    | some h => some (if h ≠ "" ∧ ¬(h.data.head? = some '#') then (⟨'#' :: h.data⟩ : String) else h)
    | none => none
  let gid := (rowGet row "group_id").bind parseCell
  let sid := (rowGet row "subgroup_id").bind parseCell
  { color_id := (rowGet row "color_id").bind parseCell
    name := rowGet row "name"
    hex := hx
    group := gid
    group_id := gid
    subgroup := sid
    subgroup_id := sid }

/-- Sort key of `rows.sort(key=lambda d: d.get("color_id") or 10**9)`:
Python `or` sends both `None` and `0` to the sentinel. -/
def rowSortKey (c : ColorRec) : Int :=
  match c.color_id with
  | some v => if v = 0 then 10 ^ 9 else v
  | none => 10 ^ 9

/-- Error of the Dataset Accessor: `FileNotFoundError` when neither
source is available. -/
inductive DsErr where
  | datasetNotFound
  deriving DecidableEq

/-- `dataset.load_chinacolor` with its I/O trace: try the CSV source
(package then fallback) and normalize + sort its rows; otherwise the
JSON source, synthesizing `color_id = position` (1-based) when missing;
otherwise fail.  Every call performs its reads anew — the source keeps
no cache. -/
def load_chinacolor (st : Storage) : Except DsErr (List ColorRec) × List ReadEv :=
  match loadText st.pkgCsv st.fbCsv "chinacolor.csv" with
  | (some rows, ev) =>
    (.ok ((rows.map normalizeRow).mergeSort (fun a b => decide (rowSortKey a ≤ rowSortKey b))), ev)
  | (none, ev) =>
    match loadText st.pkgColorJson st.fbColorJson "chinacolor.json" with
    | (some items, ev2) =>
      (.ok (items.enum.map (fun e =>
        if e.2.color_id = none then { e.2 with color_id := some ((e.1 : Int) + 1) } else e.2)),
       ev ++ ev2)
    | (none, ev2) => (.error .datasetNotFound, ev ++ ev2)

/-- `dataset.load_palette_list` with its I/O trace: the palette JSON
object (mapping plus declaration-order keys, carried as one association
list), or `FileNotFoundError`. -/
def load_palette_list (st : Storage) :
    Except DsErr (List (String × Pal)) × List ReadEv :=
  match loadText st.pkgPalette st.fbPalette "palette_list.json" with
  | (some data, ev) => (.ok data, ev)
  | (none, ev) => (.error .datasetNotFound, ev)

/-- `k` successive calls of a loader inside one process.  The source
keeps no module-level cache, so no state flows from one call to the
next: each call is the same function of the unchanged storage. -/
def runCalls (f : Storage → β) (st : Storage) (k : Nat) : List β :=
  List.replicate k (f st)

/-- The contiguous length-`k` window of `base` starting at index `lo`,
in ascending original index order. -/
def window (base : List String) (lo k : Nat) : List String :=
  (List.range k).map (fun i => base.getD (lo + i) "")

/-- Claim C2's description of a center-out result: a contiguous-by-index
subset of `base` of length `n` that contains the middle element (lower
middle for even length), in ascending original index order. -/
def isCenteredWindow (base : List String) (n : Nat) (l : List String) : Bool :=
  let m := base.length
  let mid := (m - 1) / 2
  (List.range (m + 1)).any (fun lo =>
    decide (lo + n ≤ m) && decide (lo ≤ mid) && decide (mid < lo + n)
      && decide (l = window base lo n))

/-- A three-color qualitative test palette (concrete witnesses). -/
def qualPal3 : Pal :=
  { palette_name := some "Qual CN", palette_name_e := some "Qual EN",
    ptype := some "qualitative", color_count := some 3,
    hex := ["#110000", "#001100", "#000011"] }

/-- A two-color sequential test palette whose gradient exposes the
truncation/quantisation of `_interpolate_colors`. -/
def seqPal2 : Pal :=
  { palette_name := some "Seq CN", palette_name_e := some "Seq EN",
    ptype := some "sequential", color_count := some 2,
    hex := ["#000000", "#000003"] }

/-- A five-color diverging test palette. -/
def divPal5 : Pal :=
  { palette_name := some "Div CN", palette_name_e := some "Div EN",
    ptype := some "diverging", color_count := some 5,
    hex := ["#AA0000", "#BB0000", "#CC0000", "#DD0000", "#EE0000"] }

/-- A four-color diverging test palette with a duplicated base color. -/
def divPalDup : Pal :=
  { palette_name := some "Dup CN", palette_name_e := some "Dup EN",
    ptype := some "diverging", color_count := some 4,
    hex := ["#AA0000", "#BB0000", "#AA0000", "#CC0000"] }

/-- A test palette collection holding the fixtures above. -/
def testPL : List (String × Pal) :=
  [("qual3", qualPal3), ("seq2", seqPal2), ("div5", divPal5), ("dup4", divPalDup)]

/-- A palette whose SECONDARY display name is `X` (declared first). -/
def palSecondaryX : Pal :=
  { palette_name := some "First CN", palette_name_e := some "X",
    ptype := some "qualitative", color_count := some 1, hex := ["#111111"] }

/-- A palette whose PRIMARY display name is `X` (declared second). -/
def palPrimaryX : Pal :=
  { palette_name := some "X", palette_name_e := some "Second EN",
    ptype := some "qualitative", color_count := some 1, hex := ["#222222"] }

/-- A collection where the display name `X` occurs as a secondary name
before it occurs as a primary name. -/
def clashPL : List (String × Pal) :=
  [("first", palSecondaryX), ("second", palPrimaryX)]

/-- A storage with the package CSV (one row) and the palette JSON
present. -/
def testStorage : Storage :=
  { pkgCsv := some [[("color_id", "1"), ("name", "teal"), ("hex", "#AA0000"),
      ("group_id", "1"), ("subgroup_id", "1")]]
    fbCsv := none
    pkgColorJson := none
    fbColorJson := none
    pkgPalette := some [("qual3", qualPal3)]
    fbPalette := none }

/-!
## Theorems

Helper lemmas first, then for each claim `Ci` one main theorem (with a
witness when it has hypotheses) and, for corrected claims, one
counterexample theorem refuting the claim as literally stated.
-/

theorem bindOk (a : α) (f : α → Except ε β) :
    (Except.ok a : Except ε α) >>= f = f a := rfl

theorem bindError (e : ε) (f : α → Except ε β) :
    (Except.error e : Except ε α) >>= f = Except.error e := rfl

theorem mapOk (f : α → β) (a : α) :
    (Except.ok a : Except ε α).map f = Except.ok (f a) := rfl

theorem mapError (f : α → β) (e : ε) :
    (Except.error e : Except ε α).map f = Except.error e := rfl

theorem dropWhile_eq_self_of_false {p : α → Bool} :
    ∀ {l : List α}, (∀ c ∈ l, p c = false) → l.dropWhile p = l
  | [], _ => rfl
  | c :: l, h => by
    simp only [List.dropWhile_cons, h c (List.mem_cons_self c l)]
    simp

theorem pyStrip_eq_self {l : List Char} (h : ∀ c ∈ l, isPySpace c = false) :
    pyStrip l = l := by
  unfold pyStrip
  rw [dropWhile_eq_self_of_false h, dropWhile_eq_self_of_false, List.reverse_reverse]
  intro c hc
  exact h c (List.mem_reverse.mp hc)

theorem not_space_of_hex {c : Char} (h : isHexDigitChar c = true) :
    isPySpace c = false := by
  simp only [isHexDigitChar, Bool.or_eq_true, Bool.and_eq_true, decide_eq_true_eq] at h
  simp only [isPySpace, Bool.or_eq_false_iff, decide_eq_false_iff_not]
  omega

theorem ne_hash_of_hex {c : Char} (h : isHexDigitChar c = true) : ¬c = '#' := by
  intro he
  rw [he] at h
  exact absurd h (by decide)

theorem pyStrip_hex_list {cs : List Char} (h : ∀ c ∈ cs, isHexDigitChar c = true) :
    pyStrip cs = cs :=
  pyStrip_eq_self (fun c hc => not_space_of_hex (h c hc))

theorem pyStrip_hash_hex {cs : List Char} (h : ∀ c ∈ cs, isHexDigitChar c = true) :
    pyStrip ('#' :: cs) = '#' :: cs := by
  apply pyStrip_eq_self
  intro c hc
  rcases List.mem_cons.mp hc with rfl | hc
  · decide
  · exact not_space_of_hex (h c hc)

theorem to_hex_hash3 {a b c : Char} (ha : isHexDigitChar a = true)
    (hb : isHexDigitChar b = true) (hc : isHexDigitChar c = true) :
    to_hex ⟨['#', a, b, c]⟩ =
      .ok ⟨['#', pyUpperChar a, pyUpperChar a, pyUpperChar b, pyUpperChar b,
            pyUpperChar c, pyUpperChar c]⟩ := by
  have hs : pyStrip ['#', a, b, c] = ['#', a, b, c] := by
    apply pyStrip_hash_hex
    intro x hx
    simp only [List.mem_cons, List.not_mem_nil, or_false] at hx
    rcases hx with rfl | rfl | rfl <;> assumption
  simp [to_hex, hexShapeTest, hex6, hs, ha, hb, hc, Except.map]

theorem to_hex_hash6 {d1 d2 d3 d4 d5 d6 : Char} (h1 : isHexDigitChar d1 = true)
    (h2 : isHexDigitChar d2 = true) (h3 : isHexDigitChar d3 = true)
    (h4 : isHexDigitChar d4 = true) (h5 : isHexDigitChar d5 = true)
    (h6 : isHexDigitChar d6 = true) :
    to_hex ⟨['#', d1, d2, d3, d4, d5, d6]⟩ =
      .ok ⟨['#', pyUpperChar d1, pyUpperChar d2, pyUpperChar d3, pyUpperChar d4,
            pyUpperChar d5, pyUpperChar d6]⟩ := by
  have hs : pyStrip ['#', d1, d2, d3, d4, d5, d6] = ['#', d1, d2, d3, d4, d5, d6] := by
    apply pyStrip_hash_hex
    intro x hx
    simp only [List.mem_cons, List.not_mem_nil, or_false] at hx
    rcases hx with rfl | rfl | rfl | rfl | rfl | rfl <;> assumption
  simp [to_hex, hexShapeTest, hex6, hs, h1, h2, h3, h4, h5, h6, Except.map]

theorem to_hex_hash8 {d1 d2 d3 d4 d5 d6 a1 a2 : Char} (h1 : isHexDigitChar d1 = true)
    (h2 : isHexDigitChar d2 = true) (h3 : isHexDigitChar d3 = true)
    (h4 : isHexDigitChar d4 = true) (h5 : isHexDigitChar d5 = true)
    (h6 : isHexDigitChar d6 = true) (h7 : isHexDigitChar a1 = true)
    (h8 : isHexDigitChar a2 = true) :
    to_hex ⟨['#', d1, d2, d3, d4, d5, d6, a1, a2]⟩ =
      .ok ⟨['#', pyUpperChar d1, pyUpperChar d2, pyUpperChar d3, pyUpperChar d4,
            pyUpperChar d5, pyUpperChar d6]⟩ := by
  have hs : pyStrip ['#', d1, d2, d3, d4, d5, d6, a1, a2]
      = ['#', d1, d2, d3, d4, d5, d6, a1, a2] := by
    apply pyStrip_hash_hex
    intro x hx
    simp only [List.mem_cons, List.not_mem_nil, or_false] at hx
    rcases hx with rfl | rfl | rfl | rfl | rfl | rfl | rfl | rfl <;> assumption
  simp [to_hex, hexShapeTest, hex6, hs, h1, h2, h3, h4, h5, h6, h7, h8, Except.map]

/-- C8: for the valid hex forms `#RGB`, `#RRGGBB`, `#RRGGBBAA`, `to_hex`
returns the canonical uppercase `#RRGGBB`: the shorthand is expanded by
duplicating each digit, the trailing alpha pair of the 8-digit form is
silently dropped, and equivalent forms of the same color (a shorthand
and its expansion; an 8-digit form and its first six digits) give the
identical canonical result. -/
theorem c8_hex_forms_canonical {a b c d1 d2 d3 d4 d5 d6 a1 a2 : Char}
    (ha : isHexDigitChar a = true) (hb : isHexDigitChar b = true)
    (hc : isHexDigitChar c = true)
    (h1 : isHexDigitChar d1 = true) (h2 : isHexDigitChar d2 = true)
    (h3 : isHexDigitChar d3 = true) (h4 : isHexDigitChar d4 = true)
    (h5 : isHexDigitChar d5 = true) (h6 : isHexDigitChar d6 = true)
    (h7 : isHexDigitChar a1 = true) (h8 : isHexDigitChar a2 = true) :
    to_hex ⟨['#', a, b, c]⟩ =
      .ok ⟨['#', pyUpperChar a, pyUpperChar a, pyUpperChar b, pyUpperChar b,
            pyUpperChar c, pyUpperChar c]⟩
    ∧ to_hex ⟨['#', d1, d2, d3, d4, d5, d6]⟩ =
      .ok ⟨['#', pyUpperChar d1, pyUpperChar d2, pyUpperChar d3, pyUpperChar d4,
            pyUpperChar d5, pyUpperChar d6]⟩
    ∧ to_hex ⟨['#', d1, d2, d3, d4, d5, d6, a1, a2]⟩ =
      .ok ⟨['#', pyUpperChar d1, pyUpperChar d2, pyUpperChar d3, pyUpperChar d4,
            pyUpperChar d5, pyUpperChar d6]⟩
    ∧ to_hex ⟨['#', a, b, c]⟩ = to_hex ⟨['#', a, a, b, b, c, c]⟩
    ∧ to_hex ⟨['#', d1, d2, d3, d4, d5, d6, a1, a2]⟩
      = to_hex ⟨['#', d1, d2, d3, d4, d5, d6]⟩ := by
  refine ⟨to_hex_hash3 ha hb hc, to_hex_hash6 h1 h2 h3 h4 h5 h6,
    to_hex_hash8 h1 h2 h3 h4 h5 h6 h7 h8, ?_, ?_⟩
  · rw [to_hex_hash3 ha hb hc, to_hex_hash6 ha ha hb hb hc hc]
  · rw [to_hex_hash8 h1 h2 h3 h4 h5 h6 h7 h8, to_hex_hash6 h1 h2 h3 h4 h5 h6]

/-- Witness for C8 at `#abc`, `#a1B2c3`, `#a1B2c3FF`. -/
theorem c8_hex_forms_canonical_witness :
    to_hex "#abc" = .ok "#AABBCC"
    ∧ to_hex "#a1B2c3" = .ok "#A1B2C3"
    ∧ to_hex "#a1B2c3fF" = .ok "#A1B2C3"
    ∧ to_hex "#abc" = to_hex "#aabbcc"
    ∧ to_hex "#a1B2c3fF" = to_hex "#a1B2c3" := by
  have h := @c8_hex_forms_canonical 'a' 'b' 'c' 'a' '1' 'B' '2' 'c' '3' 'f' 'F'
    (by decide) (by decide) (by decide) (by decide) (by decide) (by decide)
    (by decide) (by decide) (by decide) (by decide) (by decide)
  exact ⟨h.1, h.2.1, h.2.2.1, h.2.2.2.1, h.2.2.2.2⟩

theorem to_hex_no_hash_eq {cs : List Char} (hall : ∀ c ∈ cs, isHexDigitChar c = true)
    (hne : cs ≠ []) : to_hex ⟨cs⟩ = to_hex ⟨'#' :: cs⟩ := by
  have hs1 : pyStrip cs = cs := pyStrip_hex_list hall
  have hs2 : pyStrip ('#' :: cs) = '#' :: cs := pyStrip_hash_hex hall
  obtain ⟨c0, cs', rfl⟩ : ∃ c0 cs', cs = c0 :: cs' := by
    rcases cs with _ | ⟨c0, cs'⟩
    · exact absurd rfl hne
    · exact ⟨c0, cs', rfl⟩
  have hc0 : ¬c0 = '#' := ne_hash_of_hex (hall c0 (List.mem_cons_self c0 cs'))
  simp [to_hex, hexShapeTest, hex6, hs1, hs2, hc0]

/-- C9 (implicit claim): `to_hex` also accepts the hex grammars without
the leading `#`; for every string of 3, 6 or 8 hex digits the parse
succeeds and agrees with the `#`-prefixed form. -/
theorem c9_to_hex_optional_hash (cs : List Char)
    (hall : ∀ c ∈ cs, isHexDigitChar c = true)
    (hlen : cs.length = 3 ∨ cs.length = 6 ∨ cs.length = 8) :
    (to_hex ⟨cs⟩).isOk = true ∧ to_hex ⟨cs⟩ = to_hex ⟨'#' :: cs⟩ := by
  have hne : cs ≠ [] := by
    rcases hlen with h | h | h <;> (intro e; subst e; simp at h)
  have heq := to_hex_no_hash_eq hall hne
  refine ⟨?_, heq⟩
  rw [heq]
  rcases cs with _ | ⟨a, cs⟩
  · simp at hlen
  rcases cs with _ | ⟨b, cs⟩
  · simp at hlen
  rcases cs with _ | ⟨c, cs⟩
  · simp at hlen
  rcases cs with _ | ⟨d, cs⟩
  · rw [to_hex_hash3 (hall a (by simp)) (hall b (by simp)) (hall c (by simp))]
    rfl
  rcases cs with _ | ⟨e, cs⟩
  · simp at hlen
  rcases cs with _ | ⟨f, cs⟩
  · simp at hlen
  rcases cs with _ | ⟨g, cs⟩
  · rw [to_hex_hash6 (hall a (by simp)) (hall b (by simp)) (hall c (by simp))
      (hall d (by simp)) (hall e (by simp)) (hall f (by simp))]
    rfl
  rcases cs with _ | ⟨h8, cs⟩
  · simp at hlen
  rcases cs with _ | ⟨i, cs⟩
  · rw [to_hex_hash8 (hall a (by simp)) (hall b (by simp)) (hall c (by simp))
      (hall d (by simp)) (hall e (by simp)) (hall f (by simp))
      (hall g (by simp)) (hall h8 (by simp))]
    rfl
  · simp at hlen

/-- Witness for C9 at `a1b` / `a1b2c3` / `a1b2c3d4`. -/
theorem c9_to_hex_optional_hash_witness :
    (to_hex "a1b").isOk = true ∧ to_hex "a1b" = to_hex "#a1b"
    ∧ (to_hex "a1b2c3").isOk = true ∧ to_hex "a1b2c3" = to_hex "#a1b2c3"
    ∧ (to_hex "a1b2c3d4").isOk = true ∧ to_hex "a1b2c3d4" = to_hex "#a1b2c3d4" := by
  have h3 := c9_to_hex_optional_hash ['a', '1', 'b'] (by decide) (by decide)
  have h6 := c9_to_hex_optional_hash ['a', '1', 'b', '2', 'c', '3'] (by decide) (by decide)
  have h8 := c9_to_hex_optional_hash ['a', '1', 'b', '2', 'c', '3', 'd', '4']
    (by decide) (by decide)
  exact ⟨h3.1, h3.2, h6.1, h6.2, h8.1, h8.2⟩

/-- C5: for every palette identifier and count, `get_palette` with
`direction = -1` is the reverse of `direction = 1` (on errors both fail
identically), and every direction value other than `1` and `-1` is
silently normalized to `1`. -/
theorem c5_direction_reverse_normalize (pl : List (String × Pal))
    (x : PaletteIdent) (n : Option Int) :
    get_palette pl x n (-1) = (get_palette pl x n 1).map List.reverse
    ∧ ∀ d : Int, ¬d = 1 → ¬d = -1 → get_palette pl x n d = get_palette pl x n 1 := by
  constructor
  · cases hn : normalize_identifier pl x with
    | error e => simp [get_palette, hn, bindError, mapError]
    | ok kp =>
      obtain ⟨k, p⟩ := kp
      cases hc : paletteColors p n with
      | error e => simp [get_palette, hn, hc, bindOk, bindError, mapError]
      | ok colors => simp [get_palette, hn, hc, bindOk, mapOk]
  · intro d hd1 hdm1
    cases hn : normalize_identifier pl x with
    | error e => simp [get_palette, hn, bindError]
    | ok kp =>
      obtain ⟨k, p⟩ := kp
      cases hc : paletteColors p n with
      | error e => simp [get_palette, hn, hc, bindOk, bindError]
      | ok colors => simp [get_palette, hn, hc, bindOk, hd1, hdm1]

/-- Witness for C5 on the test collection, `n = 2`, `d = 0`. -/
theorem c5_direction_reverse_normalize_witness :
    get_palette testPL (.name "qual3") (some 2) (-1)
      = (get_palette testPL (.name "qual3") (some 2) 1).map List.reverse
    ∧ get_palette testPL (.name "qual3") (some 2) 0
      = get_palette testPL (.name "qual3") (some 2) 1 := by
  have h := c5_direction_reverse_normalize testPL (.name "qual3") (some 2)
  exact ⟨h.1, h.2 0 (by decide) (by decide)⟩

theorem length_flatten_replicate (k : Nat) (base : List α) :
    (List.replicate k base).flatten.length = k * base.length := by
  simp [List.length_flatten, List.sum_replicate, smul_eq_mul]

theorem take_flatten_replicate_le {base : List α} {k1 k2 n : Nat}
    (hk : k1 ≤ k2) (h1 : n ≤ k1 * base.length) :
    ((List.replicate k2 base).flatten).take n = ((List.replicate k1 base).flatten).take n := by
  have hsplit : k2 = k1 + (k2 - k1) := by omega
  rw [hsplit, List.replicate_add, List.flatten_append,
    List.take_append_of_le_length (by rw [length_flatten_replicate]; exact h1)]

theorem take_flatten_replicate {base : List α} {k1 k2 n : Nat}
    (h1 : n ≤ k1 * base.length) (h2 : n ≤ k2 * base.length) :
    ((List.replicate k1 base).flatten).take n = ((List.replicate k2 base).flatten).take n := by
  rcases Nat.le_total k1 k2 with h | h
  · rw [take_flatten_replicate_le h h1]
  · rw [take_flatten_replicate_le h h2]

/-- C6: for a qualitative palette with `m` base colors (a well-formed
record: declared count equal to `m > 0`) and a requested `n > m`,
`get_palette` cycles: the result is the base list repeated enough times
and truncated to exactly `n` elements, order preserved inside each
repetition; for `n = 2m` it is the base cycled exactly twice. -/
theorem c6_qualitative_cycle (pl : List (String × Pal)) (x : PaletteIdent)
    (k : String) (p : Pal) (n : Int)
    (hres : normalize_identifier pl x = Except.ok (k, p))
    (htype : p.ptype.getD "qualitative" = "qualitative")
    (hcount : p.color_count.getD (p.hex.length : Int) = (p.hex.length : Int))
    (hm : 0 < p.hex.length) (hn : (p.hex.length : Int) < n) :
    ∃ l, get_palette pl x (some n) 1 = Except.ok l
      ∧ l.length = n.toNat
      ∧ l = ((List.replicate n.toNat p.hex).flatten).take n.toNat
      ∧ (n = 2 * (p.hex.length : Int) → l = p.hex ++ p.hex) := by
  have hm1 : (1 : Int) ≤ (p.hex.length : Int) := by exact_mod_cast hm
  have hm0 : ¬p.hex.length = 0 := by omega
  have hnpos : 0 ≤ n := by omega
  have hone : ¬(("qualitative" : String) = "sequential" ∨ ("qualitative" : String) = "diverging") := by
    decide
  have hcol : paletteColors p (some n)
      = Except.ok (pySliceTake n
          ((List.replicate (Int.toNat (Int.fdiv n (p.hex.length : Int) + 1)) p.hex).flatten)) := by
    simp only [paletteColors, hcount, htype]
    rw [if_pos hn, if_neg hone, if_neg hm0]
  -- the number of repetitions the code uses covers n
  set q := Int.fdiv n (p.hex.length : Int) with hq
  have hfd : n < (q + 1) * (p.hex.length : Int) := by
    have hmod := Int.emod_emod_of_dvd n (dvd_refl (p.hex.length : Int))
    have hlt : Int.fmod n (p.hex.length : Int) < (p.hex.length : Int) :=
      Int.fmod_lt_of_pos n (by omega)
    have hfe : (p.hex.length : Int) * q + Int.fmod n (p.hex.length : Int) = n :=
      Int.fdiv_add_fmod n (p.hex.length : Int)
    nlinarith
  have hq0 : 0 ≤ q := Int.fdiv_nonneg (by omega) (by omega)
  have hcov : n.toNat ≤ (Int.toNat (q + 1)) * p.hex.length := by
    rw [← Nat.cast_le (α := Int)]
    push_cast
    rw [Int.toNat_of_nonneg hnpos, Int.toNat_of_nonneg (by omega)]
    omega
  have hcov2 : n.toNat ≤ n.toNat * p.hex.length :=
    Nat.le_mul_of_pos_right _ hm
  have hslice : pySliceTake n ((List.replicate (Int.toNat (q + 1)) p.hex).flatten)
      = ((List.replicate (Int.toNat (q + 1)) p.hex).flatten).take n.toNat := by
    unfold pySliceTake
    rw [if_pos hnpos]
  refine ⟨((List.replicate (Int.toNat (q + 1)) p.hex).flatten).take n.toNat, ?_, ?_, ?_, ?_⟩
  · simp only [get_palette, hres, bindOk, hcol, hslice]
    simp
  · rw [List.length_take, length_flatten_replicate]
    omega
  · exact take_flatten_replicate hcov hcov2
  · intro h2m
    rw [@take_flatten_replicate _ p.hex _ 2 n.toNat hcov (by omega)]
    have hnt : n.toNat = 2 * p.hex.length := by omega
    have hflat : (List.replicate 2 p.hex).flatten = p.hex ++ p.hex := by
      simp [List.replicate, List.flatten]
    rw [hflat, hnt]
    apply List.take_of_length_le
    simp [Nat.two_mul]

/-- Witness for C6 on the test collection: qualitative palette `qual3`
(3 base colors), `n = 6 = 2m`. -/
theorem c6_qualitative_cycle_witness :
    normalize_identifier testPL (.name "qual3") = Except.ok ("qual3", qualPal3)
    ∧ qualPal3.ptype.getD "qualitative" = "qualitative"
    ∧ qualPal3.color_count.getD (qualPal3.hex.length : Int) = (qualPal3.hex.length : Int)
    ∧ 0 < qualPal3.hex.length
    ∧ (qualPal3.hex.length : Int) < 6
    ∧ ∃ l, get_palette testPL (.name "qual3") (some 6) 1 = Except.ok l
      ∧ l.length = (6 : Int).toNat
      ∧ l = ((List.replicate (6 : Int).toNat qualPal3.hex).flatten).take (6 : Int).toNat
      ∧ ((6 : Int) = 2 * (qualPal3.hex.length : Int) → l = qualPal3.hex ++ qualPal3.hex) :=
  ⟨rfl, rfl, rfl, by decide, by decide,
    c6_qualitative_cycle testPL (.name "qual3") "qual3" qualPal3 6 rfl rfl rfl
      (by decide) (by decide)⟩

theorem find?_of_first_index {p : α → Bool} :
    ∀ (l : List α) (i : Nat) (hi : i < l.length),
      p (l.get ⟨i, hi⟩) = true →
      (∀ j (hj : j < i), p (l.get ⟨j, Nat.lt_trans hj hi⟩) = false) →
      l.find? p = some (l.get ⟨i, hi⟩)
  | a :: t, 0, _, hp, _ => by
    simp only [List.get] at hp ⊢
    rw [List.find?_cons_of_pos _ hp]
  | a :: t, i + 1, hi, hp, hbefore => by
    have ha : p a = false := hbefore 0 (Nat.succ_pos i)
    simp only [List.get] at hp ⊢
    rw [List.find?_cons_of_neg _ (by simp [ha])]
    exact find?_of_first_index t i (Nat.lt_of_succ_lt_succ hi) hp
      (fun j hj => hbefore (j + 1) (Nat.succ_lt_succ hj))

/-- C4 counterexample: with `clashPL`, the identifier `x` is not a key,
it matches the second palette on its PRIMARY display name and the first
palette only on its SECONDARY display name — yet resolution returns the
first palette, so a primary-name match does not take precedence over an
earlier secondary-name match. -/
theorem c4_counterexample_secondary_beats_primary :
    normalize_identifier clashPL (.name "x") = Except.ok ("first", palSecondaryX)
    ∧ palMap clashPL "x" = none
    ∧ pyLower (palPrimaryX.palette_name.getD "") = pyLower "x"
    ∧ ¬pyLower (palSecondaryX.palette_name.getD "") = pyLower "x"
    ∧ pyLower (palSecondaryX.palette_name_e.getD "") = pyLower "x" :=
  ⟨rfl, rfl, by decide, by decide, by decide⟩

/-- C4 amended: an exact match against the palette key is tried first;
otherwise a SINGLE pass over the palettes in declaration order returns
the first whose primary or secondary display name matches
case-insensitively — declaration order alone decides, so an earlier
palette matching only on its secondary name wins over a later palette
matching on its primary name. -/
theorem c4_resolution_single_pass (pl : List (String × Pal)) (s : String) :
    (∀ p, palMap pl s = some p → normalize_identifier pl (.name s) = Except.ok (s, p))
    ∧ (palMap pl s = none → ∀ (i : Nat) (hi : i < pl.length),
        nameMatch s (pl.get ⟨i, hi⟩) = true →
        (∀ j (hj : j < i), nameMatch s (pl.get ⟨j, Nat.lt_trans hj hi⟩) = false) →
        normalize_identifier pl (.name s) = Except.ok (pl.get ⟨i, hi⟩)) := by
  constructor
  · intro p hp
    simp [normalize_identifier, hp]
  · intro hnone i hi hp hbefore
    simp only [normalize_identifier, hnone]
    rw [find?_of_first_index pl i hi hp hbefore]

/-- Witness for C4 amended, on `clashPL` at index 0 (secondary-name
match) and on `testPL` by exact key. -/
theorem c4_resolution_single_pass_witness :
    (palMap testPL "qual3" = some qualPal3
      ∧ normalize_identifier testPL (.name "qual3") = Except.ok ("qual3", qualPal3))
    ∧ (palMap clashPL "x" = none
      ∧ nameMatch "x" (("first", palSecondaryX)) = true
      ∧ normalize_identifier clashPL (.name "x") = Except.ok ("first", palSecondaryX)) := by
  have h1 := (c4_resolution_single_pass testPL "qual3").1 qualPal3 rfl
  have h2 := (c4_resolution_single_pass clashPL "x").2 rfl 0 (by decide) (by decide)
    (fun j hj => absurd hj (Nat.not_lt_zero j))
  exact ⟨⟨rfl, h1⟩, ⟨rfl, by decide, h2⟩⟩

/-- C3 counterexample: on a storage holding the data files, the first
call of each loader succeeds, yet the second call performs exactly the
same nonempty read of the underlying source again — nothing is cached
between calls. -/
theorem c3_counterexample_second_call_rereads :
    runCalls load_chinacolor testStorage 2
      = [load_chinacolor testStorage, load_chinacolor testStorage]
    ∧ (load_chinacolor testStorage).1.isOk = true
    ∧ (load_chinacolor testStorage).2 = [ReadEv.pkg "chinacolor.csv"]
    ∧ ¬(load_chinacolor testStorage).2 = []
    ∧ (load_palette_list testStorage).1.isOk = true
    ∧ (load_palette_list testStorage).2 = [ReadEv.pkg "palette_list.json"]
    ∧ ¬(load_palette_list testStorage).2 = [] :=
  ⟨rfl, rfl, rfl, by decide, rfl, rfl, by decide⟩

/-- C3 amended: the loaders keep no cache — every call, first or
repeated, performs at least one read of the underlying data source —
but repeated calls do return the same logical collection, because each
call is the same pure function of the unchanged storage. -/
theorem c3_no_cache_but_stable_results (st : Storage) (k : Nat) :
    runCalls load_chinacolor st k = List.replicate k (load_chinacolor st)
    ∧ 1 ≤ (load_chinacolor st).2.length
    ∧ runCalls load_palette_list st k = List.replicate k (load_palette_list st)
    ∧ 1 ≤ (load_palette_list st).2.length := by
  refine ⟨rfl, ?_, rfl, ?_⟩
  · obtain ⟨pc, fc, pj, fj, pp, fp⟩ := st
    cases pc <;> cases fc <;> cases pj <;> cases fj <;>
      simp [load_chinacolor, loadText]
  · obtain ⟨pc, fc, pj, fj, pp, fp⟩ := st
    cases pp <;> cases fp <;> simp [load_palette_list, loadText]

theorem dedupByHex_nil_iff (l : List (Int × String)) :
    dedupByHex l [] = [] ↔ l = [] := by
  cases l with
  | nil => simp [dedupByHex]
  | cons p rest => simp [dedupByHex]

theorem custom_palette_of_empty (ds : List ColorRec) (color_ids : Option (List Int))
    (names : Option (List String)) (hexes : Option (List String))
    (groups : Option (List Int)) (subgroups : Option (List (List Int)))
    (order : Int) (n : Option Int) (direction : Int)
    (hch : buildChosen ds color_ids names hexes groups subgroups = Except.ok []) :
    custom_palette ds color_ids names hexes groups subgroups order n direction
      = Except.error CErr.emptySelection := by
  simp [custom_palette, hch, bindOk, dedupByHex]

theorem custom_palette_of_nonempty (ds : List ColorRec) (color_ids : Option (List Int))
    (names : Option (List String)) (hexes : Option (List String))
    (groups : Option (List Int)) (subgroups : Option (List (List Int)))
    (order : Int) (n : Option Int) (direction : Int) (chosen : List (Int × String))
    (hch : buildChosen ds color_ids names hexes groups subgroups = Except.ok chosen)
    (hne : ¬chosen = []) :
    ∃ l, custom_palette ds color_ids names hexes groups subgroups order n direction
      = Except.ok l := by
  have hd : ¬dedupByHex chosen [] = [] := fun h => hne ((dedupByHex_nil_iff chosen).mp h)
  simp only [custom_palette, hch, bindOk]
  rw [if_neg hd]
  split <;> exact ⟨_, rfl⟩

/-- C7 counterexample: a call where no input criterion yields any color
(everything empty) but `groups = [1]` comes with an explicitly empty
`subgroups` list: the call fails with `IndexError` (`subgroups[-1]`),
not with `EmptySelection` — so "fails with EmptySelection iff nothing
survives dedup" is false as stated. -/
theorem c7_counterexample_indexerror_preempts :
    custom_palette [] none none none (some [1]) (some []) 1 none 1
      = Except.error CErr.indexError
    ∧ ¬CErr.indexError = CErr.emptySelection :=
  ⟨rfl, by decide⟩

/-- C7 amended: whenever the candidate-collection phase itself does not
raise (its only failure is the `subgroups[-1]` IndexError corner,
hypothesis `hch`), `custom_palette` fails — and fails with
`EmptySelection` — iff no input criterion yielded any candidate
(equivalently, nothing survives dedup), and succeeds whenever at least
one selected color survives dedup. -/
theorem c7_empty_selection_iff (ds : List ColorRec) (color_ids : Option (List Int))
    (names : Option (List String)) (hexes : Option (List String))
    (groups : Option (List Int)) (subgroups : Option (List (List Int)))
    (order : Int) (n : Option Int) (direction : Int) (chosen : List (Int × String))
    (hch : buildChosen ds color_ids names hexes groups subgroups = Except.ok chosen) :
    (custom_palette ds color_ids names hexes groups subgroups order n direction
        = Except.error CErr.emptySelection ↔ dedupByHex chosen [] = [])
    ∧ (dedupByHex chosen [] = [] ↔ chosen = [])
    ∧ (¬chosen = [] → ∃ l,
        custom_palette ds color_ids names hexes groups subgroups order n direction
          = Except.ok l) := by
  refine ⟨?_, dedupByHex_nil_iff chosen, fun hne =>
    custom_palette_of_nonempty ds color_ids names hexes groups subgroups
      order n direction chosen hch hne⟩
  by_cases hc : chosen = []
  · subst hc
    have he := custom_palette_of_empty ds color_ids names hexes groups subgroups
      order n direction hch
    simp [he, dedupByHex]
  · obtain ⟨l, hl⟩ := custom_palette_of_nonempty ds color_ids names hexes groups
      subgroups order n direction chosen hch hc
    have hd : ¬dedupByHex chosen [] = [] := fun h => hc ((dedupByHex_nil_iff chosen).mp h)
    rw [hl]
    simp [hd]

/-- Witness for C7 at the claim's own instance
`build(color_ids=[], names=[], hexes=[])`. -/
theorem c7_empty_selection_iff_witness :
    buildChosen [] (some []) (some []) (some []) none none = Except.ok []
    ∧ (custom_palette [] (some []) (some []) (some []) none none 1 none 1
        = Except.error CErr.emptySelection ↔ dedupByHex [] [] = [])
    ∧ custom_palette [] (some []) (some []) (some []) none none 1 none 1
        = Except.error CErr.emptySelection := by
  have h := c7_empty_selection_iff [] (some []) (some []) (some []) none none 1 none 1 [] rfl
  exact ⟨rfl, h.1, h.1.mpr rfl⟩

theorem filterMap_filter_eq (f : α → Option β) (p : α → Bool)
    (hp : ∀ a, p a = (f a).isSome) (l : List α) :
    (l.filter p).filterMap f = l.filterMap f := by
  induction l with
  | nil => rfl
  | cons a rest ih =>
    rw [List.filter_cons]
    cases hf : f a with
    | none =>
      rw [if_neg (by simp [hp, hf])]
      simp [List.filterMap_cons, hf, ih]
    | some b =>
      rw [if_pos (by simp [hp, hf])]
      simp [List.filterMap_cons, hf, ih]

theorem chosenAddHexes_filter (hexes : List String) : ∀ chosen,
    chosenAddHexes chosen (hexes.filter (fun h => (to_hex h).isOk))
      = chosenAddHexes chosen hexes := by
  induction hexes with
  | nil => intro chosen; rfl
  | cons hx rest ih =>
    intro chosen
    rw [List.filter_cons]
    cases hh : to_hex hx with
    | ok v =>
      rw [if_pos (by simp [hh, Except.isOk, Except.toBool])]
      simp only [chosenAddHexes, hh]
      exact ih _
    | error e =>
      rw [if_neg (by simp [hh, Except.isOk, Except.toBool])]
      simp only [chosenAddHexes, hh]
      exact ih _

/-- C10 (implicit claim): selectors that match nothing are silently
skipped — ids absent from the dataset, names with no exact match, and
hex strings whose parse raises contribute no entry and never make the
call fail: the result is unchanged when they are filtered out, and (with
no group selection) the call either fails with `EmptySelection` or
succeeds. -/
theorem c10_nonmatching_selectors_skipped (ds : List ColorRec)
    (ids : List Int) (names : List String) (hexes : List String)
    (order : Int) (n : Option Int) (direction : Int) :
    custom_palette ds (some ids) (some names) (some hexes) none none order n direction
      = custom_palette ds
          (some (ids.filter (fun i => (id_to_hex ds i).isSome)))
          (some (names.filter (fun nm => (name_to_hex ds nm).isSome)))
          (some (hexes.filter (fun h => (to_hex h).isOk)))
          none none order n direction
    ∧ (custom_palette ds (some ids) (some names) (some hexes) none none order n direction
          = Except.error CErr.emptySelection
        ∨ ∃ l, custom_palette ds (some ids) (some names) (some hexes)
            none none order n direction = Except.ok l) := by
  have hids : chosenFromIds ds (ids.filter (fun i => (id_to_hex ds i).isSome))
      = chosenFromIds ds ids :=
    filterMap_filter_eq _ _ (fun a => by simp [Option.isSome_map]) ids
  have hnames : chosenFromNames ds (names.filter (fun nm => (name_to_hex ds nm).isSome))
      = chosenFromNames ds names :=
    filterMap_filter_eq _ _ (fun a => by simp [Option.isSome_map]) names
  have hbc : buildChosen ds
        (some (ids.filter (fun i => (id_to_hex ds i).isSome)))
        (some (names.filter (fun nm => (name_to_hex ds nm).isSome)))
        (some (hexes.filter (fun h => (to_hex h).isOk))) none none
      = buildChosen ds (some ids) (some names) (some hexes) none none := by
    simp only [buildChosen, truthyList, hids, hnames, chosenAddHexes_filter]
  refine ⟨?_, ?_⟩
  · simp only [custom_palette, hbc]
  · by_cases hc : chosenAddHexes
        (chosenFromIds ds ids ++ chosenFromNames ds names) hexes = []
    · left
      exact custom_palette_of_empty ds (some ids) (some names) (some hexes)
        none none order n direction (by simp only [buildChosen, truthyList]; rw [hc])
    · right
      exact custom_palette_of_nonempty ds (some ids) (some names) (some hexes)
        none none order n direction _ rfl hc

theorem digitVal_eq {c : Char} (h : isUpperHexDigit c = true) :
    digitVal c = (if 48 ≤ c.toNat ∧ c.toNat ≤ 57 then c.toNat - 48 else c.toNat - 55) := by
  simp only [isUpperHexDigit, Bool.or_eq_true, Bool.and_eq_true, decide_eq_true_eq] at h
  unfold digitVal
  rcases h with ⟨h1, h2⟩ | ⟨h1, h2⟩
  · rw [if_pos ⟨h1, h2⟩, if_pos ⟨h1, h2⟩]
  · rw [if_neg (by omega), if_neg (by omega), if_pos ⟨h1, h2⟩, if_neg (by omega)]

theorem hexDigitU_digitVal {c : Char} (h : isUpperHexDigit c = true) :
    hexDigitU (digitVal c) = c := by
  have hd := digitVal_eq h
  simp only [isUpperHexDigit, Bool.or_eq_true, Bool.and_eq_true, decide_eq_true_eq] at h
  rcases h with ⟨h1, h2⟩ | ⟨h1, h2⟩
  · rw [hd, if_pos ⟨h1, h2⟩]
    unfold hexDigitU
    rw [if_pos (by omega)]
    have he : 48 + (c.toNat - 48) = c.toNat := by omega
    rw [he, Char.ofNat_toNat]
  · rw [hd, if_neg (by omega)]
    unfold hexDigitU
    rw [if_neg (by omega)]
    have he : 55 + (c.toNat - 55) = c.toNat := by omega
    rw [he, Char.ofNat_toNat]

theorem digitVal_le_15 {c : Char} (h : isUpperHexDigit c = true) :
    digitVal c ≤ 15 := by
  have hd := digitVal_eq h
  simp only [isUpperHexDigit, Bool.or_eq_true, Bool.and_eq_true, decide_eq_true_eq] at h
  rw [hd]
  split <;> omega

theorem byteHex_hexPairVal {c1 c2 : Char} (h1 : isUpperHexDigit c1 = true)
    (h2 : isUpperHexDigit c2 = true) :
    byteHex (hexPairVal c1 c2) = [c1, c2] := by
  have b1 := digitVal_le_15 h1
  have b2 := digitVal_le_15 h2
  unfold byteHex hexPairVal
  have e1 : (16 * digitVal c1 + digitVal c2) / 16 % 16 = digitVal c1 := by omega
  have e2 : (16 * digitVal c1 + digitVal c2) % 16 = digitVal c2 := by omega
  rw [e1, e2, hexDigitU_digitVal h1, hexDigitU_digitVal h2]

theorem canonical_shape {s : String} (h : isCanonicalHexU s = true) :
    ∃ a b c d e f, s.data = ['#', a, b, c, d, e, f]
      ∧ isUpperHexDigit a = true ∧ isUpperHexDigit b = true
      ∧ isUpperHexDigit c = true ∧ isUpperHexDigit d = true
      ∧ isUpperHexDigit e = true ∧ isUpperHexDigit f = true := by
  unfold isCanonicalHexU at h
  split at h
  · next a b c d e f heq =>
    simp only [List.all_cons, List.all_nil, Bool.and_eq_true, Bool.and_true] at h
    exact ⟨a, b, c, d, e, f, heq, h.1, h.2.1, h.2.2.1, h.2.2.2.1, h.2.2.2.2.1,
      h.2.2.2.2.2⟩
  · exact absurd h (by simp)

theorem upperHex_isHexDigitChar {c : Char} (h : isUpperHexDigit c = true) :
    isHexDigitChar c = true := by
  simp only [isUpperHexDigit, Bool.or_eq_true, Bool.and_eq_true, decide_eq_true_eq] at h
  simp only [isHexDigitChar, Bool.or_eq_true, Bool.and_eq_true, decide_eq_true_eq]
  omega

theorem parseHexColor_of_canonical {s : String} (h : isCanonicalHexU s = true) :
    parseHexColor s = some (parseHexColorD s) := by
  obtain ⟨a, b, c, d, e, f, hs, ha, hb, hc, hd, he, hf⟩ := canonical_shape h
  have hall : [a, b, c, d, e, f].all isHexDigitChar = true := by
    simp [List.all_cons, upperHex_isHexDigitChar ha, upperHex_isHexDigitChar hb,
      upperHex_isHexDigitChar hc, upperHex_isHexDigitChar hd,
      upperHex_isHexDigitChar he, upperHex_isHexDigitChar hf]
  unfold parseHexColorD parseHexColor
  rw [hs]
  simp [hall]

theorem formatRGB_parseHexColorD {s : String} (h : isCanonicalHexU s = true) :
    formatRGB (parseHexColorD s) = s := by
  obtain ⟨a, b, c, d, e, f, hs, ha, hb, hc, hd, he, hf⟩ := canonical_shape h
  have hp := parseHexColor_of_canonical h
  unfold parseHexColor at hp
  rw [hs] at hp
  simp only [List.all_cons, List.all_nil, Bool.and_true,
    upperHex_isHexDigitChar ha, upperHex_isHexDigitChar hb,
    upperHex_isHexDigitChar hc, upperHex_isHexDigitChar hd,
    upperHex_isHexDigitChar he, upperHex_isHexDigitChar hf,
    Bool.and_self, if_pos, Option.some.injEq] at hp
  unfold formatRGB
  rw [← hp]
  simp only [byteHex_hexPairVal ha hb, byteHex_hexPairVal hc hd, byteHex_hexPairVal he hf]
  show String.mk ['#', a, b, c, d, e, f] = s
  rw [← hs]

theorem mapM_parseHexColor : ∀ {l : List String},
    (∀ s ∈ l, isCanonicalHexU s = true) →
    l.mapM parseHexColor = some (l.map parseHexColorD)
  | [], _ => rfl
  | s :: rest, h => by
    rw [List.mapM_cons, parseHexColor_of_canonical (h s (List.mem_cons_self s rest)),
      mapM_parseHexColor (fun x hx => h x (List.mem_cons_of_mem s hx))]
    rfl

theorem truncByte_channel (v : Nat) :
    truncByte (Frac.div (Frac.ofInt v) (Frac.ofInt 255)) = v := by
  unfold truncByte Frac.div Frac.ofInt Frac.mul Frac.trunc
  rw [if_pos (by omega : (0:Int) ≤ 255)]
  simp only [one_mul, mul_one]
  rw [Int.mul_tdiv_cancel _ (by omega : (255:Int) ≠ 0)]
  exact Int.toNat_ofNat v

theorem linspaceFrac_head (nN : Nat) (h : 2 ≤ nN) :
    (linspaceFrac nN).head?
      = some (Frac.div (Frac.ofInt 0) (Frac.ofInt ((nN : Int) - 1))) := by
  unfold linspaceFrac
  rw [if_neg (by omega), List.head?_map]
  have hr : (List.range nN).head? = some 0 := by
    rw [List.head?_eq_getElem?]
    simp [List.getElem?_range, show 0 < nN by omega]
  rw [hr]
  rfl

theorem linspaceFrac_last (nN : Nat) (h : 2 ≤ nN) :
    (linspaceFrac nN).getLast?
      = some (Frac.div (Frac.ofInt ((nN : Int) - 1)) (Frac.ofInt ((nN : Int) - 1))) := by
  unfold linspaceFrac
  rw [if_neg (by omega), List.getLast?_map]
  have hr : (List.range nN).getLast? = some (nN - 1) := by
    rw [List.getLast?_eq_getElem?, List.length_range]
    simp [List.getElem?_range, show nN - 1 < nN by omega]
  rw [hr]
  have hc : ((nN - 1 : Nat) : Int) = (nN : Int) - 1 := by omega
  simp [hc]

theorem linspaceFrac_length (nN : Nat) (h : ¬nN = 1) :
    (linspaceFrac nN).length = nN := by
  unfold linspaceFrac
  rw [if_neg h, List.length_map, List.length_range]

theorem sampleAt_zero (chs : List Frac × List Frac × List Frac) (nN Nn : Nat)
    (h2 : 2 ≤ nN) :
    sampleAt chs Nn (Frac.div (Frac.ofInt 0) (Frac.ofInt ((nN : Int) - 1)))
      = formatRGB (truncByte (chs.1.headD (Frac.ofInt 0)),
                   truncByte (chs.2.1.headD (Frac.ofInt 0)),
                   truncByte (chs.2.2.headD (Frac.ofInt 0))) := by
  unfold sampleAt
  have hi : (Frac.floor ((Frac.div (Frac.ofInt 0)
      (Frac.ofInt ((nN : Int) - 1))).mul (Frac.ofInt Nn))).toNat = 0 := by
    unfold Frac.div Frac.ofInt Frac.mul Frac.floor
    rw [if_pos (by omega : (0:Int) ≤ (nN : Int) - 1)]
    simp
  rw [hi]
  simp [lutChan]

theorem sampleAt_last (chs : List Frac × List Frac × List Frac) (nN Nn : Nat)
    (h2 : 2 ≤ nN) (hN : 256 ≤ Nn) :
    sampleAt chs Nn (Frac.div (Frac.ofInt ((nN : Int) - 1)) (Frac.ofInt ((nN : Int) - 1)))
      = formatRGB (truncByte (chs.1.getLastD (Frac.ofInt 0)),
                   truncByte (chs.2.1.getLastD (Frac.ofInt 0)),
                   truncByte (chs.2.2.getLastD (Frac.ofInt 0))) := by
  unfold sampleAt
  have hi : (Frac.floor ((Frac.div (Frac.ofInt ((nN : Int) - 1))
      (Frac.ofInt ((nN : Int) - 1))).mul (Frac.ofInt Nn))).toNat = Nn := by
    unfold Frac.div Frac.ofInt Frac.mul Frac.floor
    rw [if_pos (by omega : (0:Int) ≤ (nN : Int) - 1)]
    simp only [one_mul, mul_one]
    rw [Int.mul_fdiv_cancel_left _ (by omega : ((nN : Int) - 1) ≠ 0)]
    exact Int.toNat_ofNat Nn
  rw [hi]
  have hz : ¬(Nn - 1 = 0) := by omega
  simp [lutChan, hz, show Nn - 1 < Nn by omega]

theorem interpolate_colors_spec {base : List String} {n : Int}
    (hvalid : ∀ s ∈ base, isCanonicalHexU s = true)
    (hm : 2 ≤ base.length) (hn : (base.length : Int) < n) :
    ∃ l, interpolate_colors base n = Except.ok l
      ∧ l.length = n.toNat
      ∧ l.headD "" = base.headD ""
      ∧ l.getLastD "" = base.getLastD "" := by
  have hmap := mapM_parseHexColor hvalid
  have hnt3 : 3 ≤ n.toNat := by omega
  have hN : 256 ≤ (if n < 256 then 256 else n).toNat := by
    split <;> omega
  obtain ⟨s0, brest, rfl⟩ : ∃ s0 brest, base = s0 :: brest := by
    cases base with
    | nil => simp at hm
    | cons a t => exact ⟨a, t, rfl⟩
  obtain ⟨lb, hlb⟩ : ∃ lb, (s0 :: brest).getLast? = some lb :=
    ⟨(s0 :: brest).getLast (by simp), List.getLast?_eq_getLast _ (by simp)⟩
  have hexp : interpolate_colors (s0 :: brest) n
      = Except.ok ((linspaceFrac n.toNat).map
          (sampleAt (channelFracs ((s0 :: brest).map parseHexColorD))
            ((if n < 256 then 256 else n).toNat))) := by
    simp only [interpolate_colors, hmap]
    rw [if_neg (show ¬((s0 :: brest).map parseHexColorD).length < 2 by
        rw [List.length_map]; omega),
      if_neg (show ¬n ≤ 0 by omega)]
  refine ⟨_, hexp, ?_, ?_, ?_⟩
  · rw [List.length_map, linspaceFrac_length _ (by omega)]
  · rw [List.headD_eq_head?_getD, List.head?_map, linspaceFrac_head _ (by omega)]
    simp only [Option.map_some', Option.getD_some]
    rw [sampleAt_zero _ _ _ (by omega)]
    simp only [channelFracs, List.map_cons, List.headD_cons]
    rw [truncByte_channel, truncByte_channel, truncByte_channel]
    exact formatRGB_parseHexColorD (hvalid s0 (by simp))
  · rw [List.getLastD_eq_getLast?, List.getLast?_map, linspaceFrac_last _ (by omega)]
    simp only [Option.map_some', Option.getD_some]
    rw [sampleAt_last _ _ _ (by omega) hN]
    simp only [channelFracs, List.getLastD_eq_getLast?, List.getLast?_map, hlb,
      Option.map_some', Option.getD_some]
    rw [truncByte_channel, truncByte_channel, truncByte_channel]
    exact formatRGB_parseHexColorD (hvalid lb (List.mem_of_getLast?_eq_some hlb))

/-- C1 counterexample: for the sequential palette `seq2`
(`#000000 → #000003`) and `n = 3`, the code's middle color is `#000001`
(quantised 256-level lookup plus truncation toward zero), while the
procedure the claim describes — sample the piecewise-linear gradient at
the evenly spaced point `t = 1/2` and round each channel to nearest —
gives `#000002`. -/
theorem c1_counterexample_not_round_nearest :
    get_palette testPL (.name "seq2") (some 3) 1
      = Except.ok ["#000000", "#000001", "#000003"]
    ∧ claimWordedInterpolation seqPal2.hex 3
      = some ["#000000", "#000002", "#000003"]
    ∧ ¬claimWordedInterpolation seqPal2.hex 3
      = some ["#000000", "#000001", "#000003"] :=
  ⟨rfl, by decide, by decide⟩

/-- C1 amended: for a well-formed sequential or diverging palette
(canonical uppercase base hexes, declared count equal to `m ≥ 2`) and a
requested `n > m`, `get_palette` returns the `n` colors of
`interpolate_colors`: the samples of the QUANTISED `max(n,256)`-level
lookup table built through the base colors, with each channel byte
obtained by TRUNCATION toward zero (not rounding); the result has
length `n` and its first and last elements equal the first and last
base colors. -/
theorem c1_interpolation_quantized_truncated (pl : List (String × Pal))
    (x : PaletteIdent) (k : String) (p : Pal) (n : Int)
    (hres : normalize_identifier pl x = Except.ok (k, p))
    (htype : p.ptype.getD "qualitative" = "sequential"
      ∨ p.ptype.getD "qualitative" = "diverging")
    (hcount : p.color_count.getD (p.hex.length : Int) = (p.hex.length : Int))
    (hvalid : ∀ s ∈ p.hex, isCanonicalHexU s = true)
    (hm : 2 ≤ p.hex.length) (hn : (p.hex.length : Int) < n) :
    ∃ l, get_palette pl x (some n) 1 = Except.ok l
      ∧ interpolate_colors p.hex n = Except.ok l
      ∧ l.length = n.toNat
      ∧ l.headD "" = p.hex.headD ""
      ∧ l.getLastD "" = p.hex.getLastD "" := by
  obtain ⟨l, hok, hlen, hhead, hlast⟩ := interpolate_colors_spec hvalid hm hn
  have hcol : paletteColors p (some n) = Except.ok l := by
    simp only [paletteColors, hcount]
    rw [if_pos hn, if_pos htype]
    exact hok
  refine ⟨l, ?_, hok, hlen, hhead, hlast⟩
  simp [get_palette, hres, bindOk, hcol]

/-- Witness for C1 amended on the test collection (`seq2`, `n = 3`). -/
theorem c1_interpolation_quantized_truncated_witness :
    normalize_identifier testPL (.name "seq2") = Except.ok ("seq2", seqPal2)
    ∧ (seqPal2.ptype.getD "qualitative" = "sequential"
        ∨ seqPal2.ptype.getD "qualitative" = "diverging")
    ∧ seqPal2.color_count.getD (seqPal2.hex.length : Int) = (seqPal2.hex.length : Int)
    ∧ (∀ s ∈ seqPal2.hex, isCanonicalHexU s = true)
    ∧ 2 ≤ seqPal2.hex.length
    ∧ (seqPal2.hex.length : Int) < 3
    ∧ ∃ l, get_palette testPL (.name "seq2") (some 3) 1 = Except.ok l
      ∧ interpolate_colors seqPal2.hex 3 = Except.ok l
      ∧ l.length = (3 : Int).toNat
      ∧ l.headD "" = seqPal2.hex.headD ""
      ∧ l.getLastD "" = seqPal2.hex.getLastD "" :=
  ⟨rfl, Or.inl rfl, rfl, by decide, by decide, by decide,
    c1_interpolation_quantized_truncated testPL (.name "seq2") "seq2" seqPal2 3
      rfl (Or.inl rfl) rfl (by decide) (by decide) (by decide)⟩

theorem strLeb_total : ∀ (a b : List Char), strLeb a b = true ∨ strLeb b a = true
  | [], _ => Or.inl rfl
  | _ :: _, [] => Or.inr rfl
  | a :: as, b :: bs => by
    unfold strLeb
    rcases Nat.lt_trichotomy a.toNat b.toNat with h | h | h
    · left
      rw [if_pos h]
    · rw [if_neg (by omega), if_neg (by omega), if_neg (by omega), if_neg (by omega)]
      exact strLeb_total as bs
    · right
      rw [if_pos h]

theorem strLeb_trans : ∀ (a b c : List Char),
    strLeb a b = true → strLeb b c = true → strLeb a c = true
  | [], _, _, _, _ => rfl
  | _ :: _, [], _, h, _ => by simp [strLeb] at h
  | _ :: _, _ :: _, [], _, h => by simp [strLeb] at h
  | a :: as, b :: bs, c :: cs, h1, h2 => by
    unfold strLeb at h1 h2 ⊢
    rcases Nat.lt_trichotomy a.toNat b.toNat with hab | hab | hab <;>
      rcases Nat.lt_trichotomy b.toNat c.toNat with hbc | hbc | hbc
    all_goals
      first
      | (rw [if_pos (by omega)])
      | (rw [if_neg (by omega), if_neg (by omega)]
         rw [if_neg (by omega), if_neg (by omega)] at h1 h2
         exact strLeb_trans as bs cs h1 h2)
      | (exfalso
         rw [if_neg (by omega), if_pos (by omega)] at h1
         exact absurd h1 (by simp))
      | (exfalso
         rw [if_neg (by omega), if_pos (by omega)] at h2
         exact absurd h2 (by simp))

theorem char_toNat_inj {a b : Char} (h : a.toNat = b.toNat) : a = b := by
  have := Char.ofNat_toNat a
  rw [h, Char.ofNat_toNat] at this
  exact this.symm

theorem strLeb_antisymm : ∀ (a b : List Char),
    strLeb a b = true → strLeb b a = true → a = b
  | [], [], _, _ => rfl
  | _ :: _, [], h, _ => by simp [strLeb] at h
  | [], _ :: _, _, h => by simp [strLeb] at h
  | a :: as, b :: bs, h1, h2 => by
    unfold strLeb at h1 h2
    rcases Nat.lt_trichotomy a.toNat b.toNat with hab | hab | hab
    · rw [if_neg (by omega), if_pos (by omega)] at h2
      exact absurd h2 (by simp)
    · rw [if_neg (by omega), if_neg (by omega)] at h1 h2
      rw [char_toNat_inj hab, strLeb_antisymm as bs h1 h2]
    · rw [if_neg (by omega), if_pos (by omega)] at h1
      exact absurd h1 (by simp)

theorem pairLeb_total (a b : Nat × String) : (pairLeb a b || pairLeb b a) = true := by
  unfold pairLeb
  rcases Nat.lt_trichotomy a.1 b.1 with h | h | h
  · simp [h]
  · simp only [h, decide_eq_true_eq]
    rcases strLeb_total a.2.data b.2.data with hs | hs <;> simp [hs]
  · simp [h]

theorem pairLeb_trans (a b c : Nat × String)
    (h1 : pairLeb a b = true) (h2 : pairLeb b c = true) : pairLeb a c = true := by
  unfold pairLeb at h1 h2 ⊢
  simp only [Bool.or_eq_true, Bool.and_eq_true, decide_eq_true_eq] at h1 h2 ⊢
  rcases h1 with h1 | ⟨h1e, h1s⟩ <;> rcases h2 with h2 | ⟨h2e, h2s⟩
  · exact Or.inl (Nat.lt_trans h1 h2)
  · exact Or.inl (h2e ▸ h1)
  · exact Or.inl (h1e ▸ h2)
  · exact Or.inr ⟨h1e.trans h2e, strLeb_trans _ _ _ h1s h2s⟩

theorem pairLeb_antisymm (a b : Nat × String)
    (h1 : pairLeb a b = true) (h2 : pairLeb b a = true) : a = b := by
  unfold pairLeb at h1 h2
  simp only [Bool.or_eq_true, Bool.and_eq_true, decide_eq_true_eq] at h1 h2
  rcases h1 with h1 | ⟨h1e, h1s⟩ <;> rcases h2 with h2 | ⟨h2e, h2s⟩
  · omega
  · omega
  · omega
  · have hs : a.2.data = b.2.data := strLeb_antisymm _ _ h1s h2s
    have : a.2 = b.2 := by
      cases a
      cases b
      simp only at h1e hs ⊢
      exact congrArg String.mk hs
    exact Prod.ext h1e this

theorem window_cons (base : List String) (lo k : Nat) :
    window base lo (k + 1) = base.getD lo "" :: window base (lo + 1) k := by
  unfold window
  rw [List.range_succ_eq_map, List.map_cons, List.map_map]
  have h0 : lo + 0 = lo := by omega
  rw [h0]
  congr 1
  apply List.map_congr_left
  intro i _
  simp only [Function.comp_apply]
  have he : lo + Nat.succ i = lo + 1 + i := by omega
  rw [he]

theorem window_concat (base : List String) (lo k : Nat) :
    window base lo (k + 1) = window base lo k ++ [base.getD (lo + k) ""] := by
  unfold window
  rw [List.range_succ, List.map_append]
  rfl

theorem window_length (base : List String) (lo k : Nat) :
    (window base lo k).length = k := by
  unfold window
  rw [List.length_map, List.length_range]

theorem window_mem {base : List String} {lo k : Nat} (h : lo + k ≤ base.length) :
    ∀ c ∈ window base lo k, c ∈ base := by
  intro c hc
  unfold window at hc
  obtain ⟨i, hi, rfl⟩ := List.mem_map.mp hc
  have hik : i < k := List.mem_range.mp hi
  rw [List.getD_eq_getElem _ _ (by omega : lo + i < base.length)]
  exact List.getElem_mem _

theorem window_map_indexOf {base : List String} (hnd : base.Nodup) {lo k : Nat}
    (h : lo + k ≤ base.length) :
    (window base lo k).map (fun c => (base.indexOf c, c))
      = (List.range k).map (fun i => (lo + i, base.getD (lo + i) "")) := by
  unfold window
  rw [List.map_map]
  apply List.map_congr_left
  intro i hi
  have hik : i < k := List.mem_range.mp hi
  simp only [Function.comp_apply]
  have hb : lo + i < base.length := by omega
  rw [List.getD_eq_getElem _ _ hb, List.indexOf_getElem hnd]

theorem pairs_range_sorted (base : List String) (lo k : Nat) :
    ((List.range k).map (fun i => (lo + i, base.getD (lo + i) ""))).Pairwise
      (fun a b => pairLeb a b = true) := by
  rw [List.pairwise_map]
  apply List.Pairwise.imp ?_ (List.pairwise_lt_range k)
  intro i j hij
  unfold pairLeb
  simp only [Bool.or_eq_true, decide_eq_true_eq]
  exact Or.inl (by omega)

theorem centerLoop_break (base : List String) (m : Nat) (n : Int) (fuel : Nat)
    (li : Int) (ri : Nat) (out : List String)
    (hcond : (out.length : Int) < n) (hli : 0 ≤ li)
    (hbrk : n ≤ (out.length : Int) + 1) :
    centerLoop base m n (fuel + 1) li ri out = out ++ [base.getD li.toNat ""] := by
  unfold centerLoop
  rw [if_pos hcond, if_pos hli]
  have hc2 : n ≤ ((out ++ [base.getD li.toNat ""]).length : Int) := by
    simp only [List.length_append, List.length_cons, List.length_nil]
    push_cast
    omega
  rw [if_pos hc2]
  rfl

theorem centerLoop_cont (base : List String) (m : Nat) (n : Int) (fuel : Nat)
    (li : Int) (ri : Nat) (out : List String)
    (hcond : (out.length : Int) < n) (hli : 0 ≤ li)
    (hnb : ¬n ≤ (out.length : Int) + 1) (hri : ri < m)
    (hnobrk : ¬(li - 1 < 0 ∧ m ≤ ri + 1)) :
    centerLoop base m n (fuel + 1) li ri out
      = centerLoop base m n fuel (li - 1) (ri + 1)
          (out ++ [base.getD li.toNat ""] ++ [base.getD ri ""]) := by
  conv_lhs => unfold centerLoop
  rw [if_pos hcond, if_pos hli]
  have hc2 : ¬n ≤ ((out ++ [base.getD li.toNat ""]).length : Int) := by
    simp only [List.length_append, List.length_cons, List.length_nil]
    push_cast
    omega
  rw [if_neg hc2]
  dsimp only
  rw [if_pos hri]
  dsimp only
  rw [if_neg hnobrk, if_neg (show ¬(false = true) by simp)]

theorem centerLoop_exit (base : List String) (m : Nat) (n : Int) (fuel : Nat)
    (li : Int) (ri : Nat) (out : List String)
    (hcond : ¬(out.length : Int) < n) :
    centerLoop base m n (fuel + 1) li ri out = out := by
  unfold centerLoop
  rw [if_neg hcond]

theorem centerLoop_spec (base : List String) (n : Int) (m mid nn : Nat)
    (hm : m = base.length) (hmid : mid = (m - 1) / 2) (hnn : nn = n.toNat)
    (hn1 : 1 ≤ n) (hnm : nn < m) :
    ∀ (fuel a : Nat) (out : List String),
      2 * a + 1 ≤ nn →
      nn ≤ 2 * a + 1 + fuel →
      out.length = 2 * a + 1 →
      out.Perm (window base (mid - a) (2 * a + 1)) →
      a ≤ mid →
      mid + a + 1 ≤ m →
      (centerLoop base m n fuel ((mid : Int) - 1 - a) (mid + 1 + a) out).Perm
          (window base (mid - nn / 2) nn)
        ∧ (centerLoop base m n fuel ((mid : Int) - 1 - a) (mid + 1 + a) out).length = nn := by
  intro fuel
  induction fuel with
  | zero =>
    intro a out h1 h2 h3 h4 h5 h6
    have heq : 2 * a + 1 = nn := by omega
    have ha : mid - a = mid - nn / 2 := by omega
    unfold centerLoop
    rw [heq, ha] at h4
    exact ⟨h4, by omega⟩
  | succ fuel ih =>
    intro a out h1 h2 h3 h4 h5 h6
    by_cases hlt : 2 * a + 1 < nn
    · -- the loop body runs
      have hcond : (out.length : Int) < n := by rw [h3]; omega
      have hma : a + 1 ≤ mid := by omega
      have hli : (0 : Int) ≤ (mid : Int) - 1 - a := by omega
      have hto : (((mid : Int) - 1 - a)).toNat = mid - (a + 1) := by omega
      have hperm1 : (out ++ [base.getD (mid - (a + 1)) ""]).Perm
          (window base (mid - (a + 1)) (2 * a + 2)) := by
        have hw : window base (mid - (a + 1)) (2 * a + 2)
            = base.getD (mid - (a + 1)) "" :: window base (mid - a) (2 * a + 1) := by
          have h21 : 2 * a + 2 = (2 * a + 1) + 1 := by omega
          have hsucc : mid - (a + 1) + 1 = mid - a := by omega
          rw [h21, window_cons, hsucc]
        rw [hw]
        exact (List.perm_append_singleton _ _).trans (h4.cons _)
      by_cases hbr : nn = 2 * a + 2
      · -- the left append reaches n: break
        rw [centerLoop_break base m n fuel _ _ out hcond hli
          (by rw [h3]; push_cast; omega), hto]
        constructor
        · have hgoal : mid - nn / 2 = mid - (a + 1) := by omega
          rw [hgoal, hbr]
          exact hperm1
        · simp only [List.length_append, List.length_cons, List.length_nil, h3]
          omega
      · -- no break: append on the right and loop
        have hri : mid + 1 + a < m := by omega
        have hnobrk : ¬((mid : Int) - 1 - a - 1 < 0 ∧ m ≤ mid + 1 + a + 1) := by
          rintro ⟨hb1, hb2⟩
          omega
        rw [centerLoop_cont base m n fuel _ _ out hcond hli
          (by rw [h3]; push_cast; omega) hri hnobrk, hto]
        have hperm2 : ((out ++ [base.getD (mid - (a + 1)) ""]) ++ [base.getD (mid + 1 + a) ""]).Perm
            (window base (mid - (a + 1)) (2 * (a + 1) + 1)) := by
          have hw : window base (mid - (a + 1)) (2 * (a + 1) + 1)
              = window base (mid - (a + 1)) (2 * a + 2) ++ [base.getD (mid + 1 + a) ""] := by
            have h23 : 2 * (a + 1) + 1 = (2 * a + 2) + 1 := by omega
            have hidx : mid - (a + 1) + (2 * a + 2) = mid + 1 + a := by omega
            rw [h23, window_concat, hidx]
          rw [hw]
          exact hperm1.append_right _
        have harg1 : (mid : Int) - 1 - a - 1 = (mid : Int) - 1 - (a + 1 : Nat) := by
          push_cast
          ring
        have harg2 : mid + 1 + a + 1 = mid + 1 + (a + 1) := by omega
        rw [harg1, harg2]
        exact ih (a + 1) _ (by omega) (by omega)
          (by simp only [List.length_append, List.length_cons, List.length_nil, h3]; omega)
          hperm2 hma (by omega)
    · -- the loop guard fails: 2a+1 = nn, return out unchanged
      have heq : 2 * a + 1 = nn := by omega
      have hcond : ¬(out.length : Int) < n := by rw [h3]; omega
      unfold centerLoop
      rw [if_neg hcond]
      have ha : mid - a = mid - nn / 2 := by omega
      rw [heq, ha] at h4
      exact ⟨h4, by omega⟩

/-- For duplicate-free `base` and `1 ≤ n < len base`,
`_diverging_center_out` returns the contiguous window of length `n`
whose left edge sits `n / 2` places left of the middle index: the
re-sort by `base.index` restores ascending original index order. -/
theorem diverging_center_out_eq_window (base : List String) (n : Int)
    (hnd : base.Nodup) (hn1 : 1 ≤ n) (hnm : n < (base.length : Int)) :
    diverging_center_out base n
      = window base ((base.length - 1) / 2 - n.toNat / 2) n.toNat := by
  have hnn1 : 1 ≤ n.toNat := by omega
  have hnnm : n.toNat < base.length := by omega
  unfold diverging_center_out
  dsimp only
  rw [if_neg (by omega : ¬(base.length : Int) ≤ n)]
  by_cases h1 : n = 1
  · subst h1
    rw [if_pos rfl]
    rfl
  · rw [if_neg h1]
    have h2n : 2 ≤ n.toNat := by omega
    have hw0 : window base ((base.length - 1) / 2 - 0) (2 * 0 + 1)
        = [base.getD ((base.length - 1) / 2) ""] := rfl
    obtain ⟨hperm, hlen⟩ :=
      centerLoop_spec base n base.length ((base.length - 1) / 2) n.toNat rfl rfl rfl
        hn1 hnnm (n.toNat + 1) 0 [base.getD ((base.length - 1) / 2) ""]
        (by omega) (by omega) (by simp)
        (by rw [hw0]) (by omega) (by omega)
    simp only [Nat.cast_zero, sub_zero, Nat.add_zero] at hperm hlen
    have hle : (base.length - 1) / 2 - n.toNat / 2 + n.toNat ≤ base.length := by omega
    have hmap := hperm.map (fun c => (base.indexOf c, c))
    rw [window_map_indexOf hnd hle] at hmap
    have hms := (List.mergeSort_perm _ pairLeb).trans hmap
    rw [@List.eq_of_perm_of_sorted _ (fun a b => pairLeb a b = true) ⟨pairLeb_antisymm⟩ _ _
        hms (List.sorted_mergeSort pairLeb_trans pairLeb_total _) (pairs_range_sorted base _ _),
      List.map_map]
    unfold pySliceTake
    rw [if_pos (by omega : (0 : Int) ≤ n)]
    have hlw : (((List.range n.toNat).map ((fun p => p.2) ∘ (fun i =>
        ((base.length - 1) / 2 - n.toNat / 2 + i,
          base.getD ((base.length - 1) / 2 - n.toNat / 2 + i) "")))).length) = n.toNat := by
      rw [List.length_map, List.length_range]
    rw [List.take_of_length_le (le_of_eq hlw)]
    unfold window
    apply List.map_congr_left
    intro i _
    rfl

/-- C2 (amended): for a resolved diverging palette whose base colors are
pairwise distinct and whose declared count equals the number of base
colors, `get_palette(p, n, 1)` with `1 ≤ n <` the base length returns
the contiguous window of length `n` starting `n / 2` left of the middle
index — a contiguous-by-index run of the base containing the middle
element (lower middle for even length), in ascending original index
order.  The duplicate-freedom hypothesis is needed: `base.index` finds
first occurrences, so a duplicated color breaks the claimed reordering. -/
theorem c2_center_out_window (pl : List (String × Pal)) (ident : PaletteIdent)
    (k : String) (p : Pal) (n : Int)
    (hres : normalize_identifier pl ident = Except.ok (k, p))
    (hty : p.ptype = some "diverging")
    (hcnt : p.color_count = some (p.hex.length : Int))
    (hnd : p.hex.Nodup)
    (hn1 : 1 ≤ n) (hnm : n < (p.hex.length : Int)) :
    get_palette pl ident (some n) 1
      = Except.ok (window p.hex ((p.hex.length - 1) / 2 - n.toNat / 2) n.toNat)
    ∧ isCenteredWindow p.hex n.toNat
        (window p.hex ((p.hex.length - 1) / 2 - n.toNat / 2) n.toNat) = true := by
  have hnn1 : 1 ≤ n.toNat := by omega
  have hnnm : n.toNat < p.hex.length := by omega
  constructor
  · have hcol : paletteColors p (some n)
        = Except.ok (diverging_center_out p.hex n) := by
      simp only [paletteColors, hcnt, hty, Option.getD_some]
      rw [if_neg (by omega : ¬(p.hex.length : Int) < n)]
      simp
    have hg : get_palette pl ident (some n) 1
        = Except.ok (diverging_center_out p.hex n) := by
      simp only [get_palette, hres, bindOk, hcol]
      simp
    rw [hg, diverging_center_out_eq_window p.hex n hnd hn1 hnm]
  · unfold isCenteredWindow
    dsimp only
    rw [List.any_eq_true]
    refine ⟨(p.hex.length - 1) / 2 - n.toNat / 2, ?_, ?_⟩
    · rw [List.mem_range]
      omega
    · simp only [Bool.and_eq_true, decide_eq_true_eq]
      exact ⟨⟨⟨by omega, by omega⟩, by omega⟩, trivial⟩

/-- C2 witness: the five-color diverging fixture at `n = 3` yields the
middle three base colors in original order, a centered window. -/
theorem c2_center_out_window_witness :
    get_palette testPL (.name "div5") (some 3) 1
      = Except.ok ["#BB0000", "#CC0000", "#DD0000"]
    ∧ isCenteredWindow divPal5.hex 3 ["#BB0000", "#CC0000", "#DD0000"] = true := by
  have h := c2_center_out_window testPL (.name "div5") "div5" divPal5 3
    rfl rfl rfl (by decide) (by decide) (by decide)
  have hw : window divPal5.hex ((divPal5.hex.length - 1) / 2 - (3 : Int).toNat / 2)
      (3 : Int).toNat = ["#BB0000", "#CC0000", "#DD0000"] := by decide
  rw [hw] at h
  exact h

/-- C2 counterexample: with a duplicated base color
(`["#AA0000", "#BB0000", "#AA0000", "#CC0000"]`, diverging), the
`base.index`-based re-sort uses first occurrences, so
`get_palette(p, 3, 1)` returns `["#AA0000", "#AA0000", "#BB0000"]`,
which is NOT a contiguous-by-index run of the base containing the
middle element in original order — no hypothesis of the claim excludes
duplicates. -/
theorem c2_counterexample_duplicate_not_window :
    get_palette testPL (.name "dup4") (some 3) 1
      = Except.ok ["#AA0000", "#AA0000", "#BB0000"]
    ∧ isCenteredWindow divPalDup.hex 3 ["#AA0000", "#AA0000", "#BB0000"] = false := by
  constructor
  · have h1 : get_palette testPL (.name "dup4") (some 3) 1
        = Except.ok (pySliceTake 3
          ((([((1 : Nat), "#BB0000"), (0, "#AA0000"), (0, "#AA0000")]).mergeSort pairLeb).map
            (fun p => p.2))) := rfl
    rw [h1]
    simp [List.mergeSort, List.merge, pairLeb, strLeb, pySliceTake]
  · decide

end ChinaColor
